import Mathlib

/-!
# Token ledger and staking engine

A shallow embedding of `backend/internal/service/token/service.go` and of the handlers
of `backend/internal/handler/token/handler.go`, followed by the face detection of
`service/face`, the success rate of `service/analytics` and the majority tally of
`service/enterprise`.

The SQL database is an explicit state `DB`: the `users` table (only its `points`
column is used by the ledger), the `tokens` table and the `token_transactions`
table.  Both keyed tables are functions from the key to an optional row, which
builds in the uniqueness of `users.id` and of `tokens.user_id` (the latter is
required by `ON CONFLICT (user_id)`).

Conventions of the embedding:

* an amount is a rational: a stored amount is the value of its column, a `float64` of Go
  is the rational it denotes; arithmetic written in SQL (`balance - $1`,
  `balance + $1 + $2`) is exact, arithmetic written in Go is rounded to `float64` by
  `Float64.round`, and so is a stored amount that `Scan` reads into a `float64` operand;
* `int`, `int64` are unbounded integers;
* an instant is a number of seconds (UTC), `AddDate(0, 0, d)` adds `86400 * d`;
* every storage round trip of an operation has an index; the argument
  `fault : Option Nat` names the round trip at which the driver returns an error
  (`none`: storage never fails).  An operation that returns an error before its
  `Commit` leaves the database as it was (the deferred `tx.Rollback()`).
-/

/-!
## Rounding of `float64` operations

Go evaluates `float64(points) * 0.1`, `token.StakedAmount * 0.05`,
`token.StakedAmount + reward` and `float64(count) / float64(total) * 100` in IEEE 754
binary64: a conversion, a constant and each operation return the exact value rounded to
the nearest number with a 53-bit significand, ties to even, and below `2 ^ -1022` to the
nearest multiple of `2 ^ -1074`.  `Float64.round` is that rounding on rationals, for
results in the finite range (no overflow to an infinity, no NaN).  A `float64` is
represented by the rational it denotes.
-/

namespace Float64

/-- The binary logarithm of `n >= 1`, rounded down (`fuel` bounds the number of halvings). -/
def log2 : Nat → Nat → Nat
  | 0, _ => 0
  | fuel + 1, n => if 2 ≤ n then log2 fuel (n / 2) + 1 else 0

/-- The power `2 ^ e` for an integer exponent. -/
def pow2 (e : Int) : ℚ := if 0 ≤ e then (2 : ℚ) ^ e.toNat else 1 / (2 : ℚ) ^ (-e).toNat

/-- The binary exponent of a positive rational `q`: the `e` with `2 ^ e <= q < 2 ^ (e + 1)`. -/
def exponent (q : ℚ) : Int :=
  if 1 ≤ q then (log2 2048 (q.num / (q.den : Int)).toNat : Int)
  else
    let l : Nat := log2 2048 (q.den / q.num.toNat)
    if q * (2 : ℚ) ^ l = 1 then -(l : Int) else -((l : Int) + 1)

/-- The integer nearest to `q`, ties to the even one. -/
def roundHalfEven (q : ℚ) : Int :=
  let f : Int := q.num / (q.den : Int)
  let r : ℚ := q - (f : ℚ)
  if r < 1 / 2 then f else if 1 / 2 < r then f + 1 else if f % 2 = 0 then f else f + 1

/-- The spacing of the binary64 numbers around a positive rational `q`: `2 ^ (e - 52)` for
the binary exponent `e` of `q`, and `2 ^ -1074` below the smallest normal number
`2 ^ -1022`. -/
def ulp (q : ℚ) : ℚ := pow2 (max (exponent q) (-1022) - 52)

/-- The binary64 number nearest to `q`, ties to even. -/
def round (q : ℚ) : ℚ :=
  if q = 0 then 0
  else if 0 < q then (roundHalfEven (q / ulp q) : ℚ) * ulp q
  else -((roundHalfEven (-q / ulp (-q)) : ℚ) * ulp (-q))

end Float64

namespace Token

/-- An instant, in seconds (UTC). -/
abbrev Time := Int

/-- Calendar-day shift `t.AddDate(0, 0, days)` in UTC. -/
def AddDate (t : Time) (days : Int) : Time := t + 86400 * days

/-- The error values of the package, `sql.ErrNoRows`, a failed `Scan` of a NULL
column into a non-nullable Go value, and any other driver error. -/
inductive Err where
  | ErrInsufficientPoints
  | ErrInsufficientBalance
  | ErrInvalidAmount
  | ErrInvalidStakePeriod
  | ErrAlreadyStaked
  | ErrNoStakedTokens
  | ErrStakePeriodActive
  | ErrNoRows
  | ErrScan
  | ErrStorage
  deriving DecidableEq, Repr

/-- A row of table `tokens` (key `user_id` is the key of the table function).
The three stake columns are nullable: `UnstakeTokens` writes NULL into them. -/
structure TokenRow where
  id : Int
  balance : ℚ
  stakedAmount : ℚ
  lastStakeDate : Option Time
  stakeDurationDays : Option Int
  stakeEndDate : Option Time
  createdAt : Time
  updatedAt : Time
  deriving DecidableEq, Repr

/-- A row of table `token_transactions`.  `pointsConverted` is scanned into a Go
`int` by `GetTransaction`, so the column is non-null; an insert that does not
name it stores the default `0`. -/
structure TxnRow where
  id : Int
  userID : Int
  type : String
  amount : ℚ
  pointsConverted : Int
  fromUserID : Option Int
  toUserID : Option Int
  description : String
  createdAt : Time
  updatedAt : Time
  deriving DecidableEq, Repr

/-- The Go struct `Transaction`. -/
structure Transaction where
  ID : Int
  UserID : Int
  Type_ : String
  Amount : ℚ
  PointsConverted : Int
  Description : String
  CreatedAt : Time
  UpdatedAt : Time
  deriving DecidableEq, Repr

/-- The database: `users.points` by user id, `tokens` by `user_id`, the
transaction log in insertion order, and the next values of the two id sequences. -/
structure DB where
  users : Int → Option Int
  tokens : Int → Option TokenRow
  txns : List TxnRow
  nextTxnID : Int
  nextTokenID : Int

/-- The storage round trip number `k` fails under the injected fault. -/
def storageFails (fault : Option Nat) (k : Nat) : Bool := fault == some k

/-- The statement `INSERT INTO token_transactions (...) VALUES (...) RETURNING id`:
appends one row and returns its id. -/
def insertTransaction (db : DB) (userID : Int) (type : String) (amount : ℚ)
    (pointsConverted : Int) (fromUserID toUserID : Option Int) (description : String)
    (now : Time) : DB × Int :=
  ({ db with
      txns := db.txns ++ [{ id := db.nextTxnID, userID := userID, type := type,
                            amount := amount, pointsConverted := pointsConverted,
                            fromUserID := fromUserID, toUserID := toUserID,
                            description := description, createdAt := now,
                            updatedAt := now }],
      nextTxnID := db.nextTxnID + 1 },
   db.nextTxnID)

/-- The Go function `GetTransaction`: point lookup by id. -/
def GetTransaction (db : DB) (id : Int) (fails : Bool) : Except Err Transaction :=
  if fails then .error .ErrStorage else
  match db.txns.find? (fun r => r.id == id) with
  | none => .error .ErrNoRows
  | some r =>
    .ok { ID := r.id, UserID := r.userID, Type_ := r.type, Amount := r.amount,
          PointsConverted := r.pointsConverted, Description := r.description,
          CreatedAt := r.createdAt, UpdatedAt := r.updatedAt }

/-- The Go expression `float64(points) * 0.1` of `ConvertPointsToTokens`: the conversion,
the constant and the product are each rounded to `float64`. -/
def tokenAmount (points : Int) : ℚ :=
  Float64.round (Float64.round (points : ℚ) * Float64.round 0.1)

/-- The Go expression `token.StakedAmount * 0.05` of `UnstakeTokens`, on the `float64`
`staked` read by `Scan`. -/
def reward (staked : ℚ) : ℚ := Float64.round (staked * Float64.round 0.05)

/-- The body of `ConvertPointsToTokens` between `Begin` and `Commit`.
Round trips: 0 `Begin`, 1 `SELECT points`, 2 `INSERT`, 3 `UPDATE users`, 4 `Commit`. -/
def ConvertPointsToTokensTx (db : DB) (userID : Int) (points : Int) (now : Time)
    (fault : Option Nat) : Except Err (DB × Transaction) :=
  let tokenAmount : ℚ := tokenAmount points
  if storageFails fault 0 then .error .ErrStorage else
  if storageFails fault 1 then .error .ErrStorage else
  match db.users userID with
  | none => .error .ErrNoRows
  | some userPoints =>
    if userPoints < points then .error .ErrInsufficientPoints else
    if storageFails fault 2 then .error .ErrStorage else
    let ins := insertTransaction db userID "EARN" tokenAmount points none none
      "Points conversion" now
    if storageFails fault 3 then .error .ErrStorage else
    match ins.1.users userID with
    | none => .error .ErrNoRows
    | some p =>
      let db2 := { ins.1 with users := Function.update ins.1.users userID (some (p - points)) }
      if storageFails fault 4 then .error .ErrStorage else
      .ok (db2, { ID := ins.2, UserID := userID, Type_ := "EARN", Amount := tokenAmount,
                  PointsConverted := points, Description := "Points conversion",
                  CreatedAt := now, UpdatedAt := now })

/-- The Go function `ConvertPointsToTokens`. -/
def ConvertPointsToTokens (db : DB) (userID : Int) (points : Int) (now : Time)
    (fault : Option Nat) : DB × Except Err Transaction :=
  match ConvertPointsToTokensTx db userID points now fault with
  | .error e => (db, .error e)
  | .ok (db2, t) => (db2, .ok t)

/-- The body of `StakeTokens` between `BeginTx` and `Commit`; returns the id of the
inserted transaction.
Round trips: 0 `BeginTx`, 1 `SELECT staked_amount`, 2 `UPDATE tokens`, 3 `INSERT`,
4 `Commit`. -/
def StakeTokensTx (db : DB) (userID : Int) (amount : ℚ) (durationDays : Int) (now : Time)
    (fault : Option Nat) : Except Err (DB × Int) :=
  if storageFails fault 0 then .error .ErrStorage else
  if storageFails fault 1 then .error .ErrStorage else
  let stakedAmount : ℚ :=
    match db.tokens userID with
    | none => 0
    | some r => r.stakedAmount
  if stakedAmount > 0 then .error .ErrAlreadyStaked else
  let endDate := AddDate now durationDays
  if storageFails fault 2 then .error .ErrStorage else
  match db.tokens userID with
  | none => .error .ErrInsufficientBalance
  | some r =>
    if r.balance ≥ amount then
      let staked : TokenRow :=
        { r with balance := r.balance - amount, stakedAmount := amount,
                 lastStakeDate := some now, stakeDurationDays := some durationDays,
                 stakeEndDate := some endDate }
      let db1 := { db with tokens := Function.update db.tokens userID (some staked) }
      if storageFails fault 3 then .error .ErrStorage else
      let ins := insertTransaction db1 userID "STAKE" amount 0 none none "Token staking" now
      if storageFails fault 4 then .error .ErrStorage else
      .ok ins
    else .error .ErrInsufficientBalance

/-- The Go function `StakeTokens`; round trip 5 is the `GetTransaction` after `Commit`. -/
def StakeTokens (db : DB) (userID : Int) (amount : ℚ) (durationDays : Int) (now : Time)
    (fault : Option Nat) : DB × Except Err Transaction :=
  if amount ≤ 0 then (db, .error .ErrInvalidAmount) else
  if durationDays < 30 then (db, .error .ErrInvalidStakePeriod) else
  match StakeTokensTx db userID amount durationDays now fault with
  | .error e => (db, .error e)
  | .ok (db2, txnID) => (db2, GetTransaction db2 txnID (storageFails fault 5))

/-- The body of `UnstakeTokens` between `BeginTx` and `Commit`.
Round trips: 0 `BeginTx`, 1 `SELECT staked_amount, stake_end_date`, 2 `UPDATE tokens`,
3 `INSERT`, 4 `Commit`.  The `Scan` of a NULL `stake_end_date` into `time.Time`
is an error.  `staked` is the `float64` `token.StakedAmount` that `Scan` reads from
`staked_amount`; it enters the Go arithmetic `token.StakedAmount * 0.05` and
`token.StakedAmount + reward` and is passed to the `UPDATE`, whose sum
`balance + $1 + $2` is computed by the database.  The test `token.StakedAmount == 0` is
written on the stored value: `staked_amount` is written by the service as 0 or as the
`float64` amount of `StakeTokens`, and such a value is 0 exactly when its `float64` is. -/
def UnstakeTokensTx (db : DB) (userID : Int) (now : Time) (fault : Option Nat) :
    Except Err (DB × Int) :=
  if storageFails fault 0 then .error .ErrStorage else
  if storageFails fault 1 then .error .ErrStorage else
  match db.tokens userID with
  | none => .error .ErrNoRows
  | some r =>
    match r.stakeEndDate with
    | none => .error .ErrScan
    | some stakeEndDate =>
      if r.stakedAmount = 0 then .error .ErrNoStakedTokens else
      if now < stakeEndDate then .error .ErrStakePeriodActive else
      let staked : ℚ := Float64.round r.stakedAmount
      let reward : ℚ := reward staked
      if storageFails fault 2 then .error .ErrStorage else
      let idle : TokenRow :=
        { r with balance := r.balance + staked + reward, stakedAmount := 0,
                 lastStakeDate := none, stakeDurationDays := none, stakeEndDate := none }
      let db1 := { db with tokens := Function.update db.tokens userID (some idle) }
      if storageFails fault 3 then .error .ErrStorage else
      let ins := insertTransaction db1 userID "UNSTAKE" (Float64.round (staked + reward)) 0
        none none "Token unstaking with reward" now
      if storageFails fault 4 then .error .ErrStorage else
      .ok ins

/-- The Go function `UnstakeTokens`; round trip 5 is the `GetTransaction` after `Commit`. -/
def UnstakeTokens (db : DB) (userID : Int) (now : Time) (fault : Option Nat) :
    DB × Except Err Transaction :=
  match UnstakeTokensTx db userID now fault with
  | .error e => (db, .error e)
  | .ok (db2, txnID) => (db2, GetTransaction db2 txnID (storageFails fault 5))

/-- The statement `INSERT INTO tokens (user_id, balance) VALUES ($1, $2)
ON CONFLICT (user_id) DO UPDATE SET balance = tokens.balance + $2`.
A fresh row has no stake: `staked_amount` defaults to 0 and the stake columns to NULL. -/
def upsertCredit (db : DB) (toUserID : Int) (amount : ℚ) (now : Time) : DB :=
  match db.tokens toUserID with
  | some r =>
    let credited : TokenRow := { r with balance := r.balance + amount }
    { db with tokens := Function.update db.tokens toUserID (some credited) }
  | none =>
    let fresh : TokenRow :=
      { id := db.nextTokenID, balance := amount, stakedAmount := 0,
        lastStakeDate := none, stakeDurationDays := none, stakeEndDate := none,
        createdAt := now, updatedAt := now }
    { db with
        tokens := Function.update db.tokens toUserID (some fresh),
        nextTokenID := db.nextTokenID + 1 }

/-- The body of `TransferTokens` between `BeginTx` and `Commit`.
Round trips: 0 `BeginTx`, 1 guarded debit, 2 upsert credit, 3 `INSERT`, 4 `Commit`. -/
def TransferTokensTx (db : DB) (fromUserID toUserID : Int) (amount : ℚ) (now : Time)
    (fault : Option Nat) : Except Err (DB × Int) :=
  if storageFails fault 0 then .error .ErrStorage else
  if storageFails fault 1 then .error .ErrStorage else
  match db.tokens fromUserID with
  | none => .error .ErrInsufficientBalance
  | some r =>
    if r.balance ≥ amount then
      let debited : TokenRow := { r with balance := r.balance - amount }
      let db1 := { db with tokens := Function.update db.tokens fromUserID (some debited) }
      if storageFails fault 2 then .error .ErrStorage else
      let db2 := upsertCredit db1 toUserID amount now
      if storageFails fault 3 then .error .ErrStorage else
      let ins := insertTransaction db2 fromUserID "TRANSFER" amount 0 (some fromUserID)
        (some toUserID) "Token transfer" now
      if storageFails fault 4 then .error .ErrStorage else
      .ok ins
    else .error .ErrInsufficientBalance

/-- The Go function `TransferTokens`; round trip 5 is the `GetTransaction` after `Commit`. -/
def TransferTokens (db : DB) (fromUserID toUserID : Int) (amount : ℚ) (now : Time)
    (fault : Option Nat) : DB × Except Err Transaction :=
  if amount ≤ 0 then (db, .error .ErrInvalidAmount) else
  match TransferTokensTx db fromUserID toUserID amount now fault with
  | .error e => (db, .error e)
  | .ok (db2, txnID) => (db2, GetTransaction db2 txnID (storageFails fault 5))

/-- The balance of an account, an absent record counting as 0. -/
def balanceOf (db : DB) (userID : Int) : ℚ :=
  match db.tokens userID with
  | none => 0
  | some r => r.balance

/-- The staked amount of an account, an absent record counting as 0 (Idle). -/
def stakedOf (db : DB) (userID : Int) : ℚ :=
  match db.tokens userID with
  | none => 0
  | some r => r.stakedAmount

/-- One call of a mutating ledger operation, with its arguments, the clock reading
and the injected storage fault. -/
inductive Call where
  | convert (userID : Int) (points : Int) (now : Time) (fault : Option Nat)
  | stake (userID : Int) (amount : ℚ) (durationDays : Int) (now : Time) (fault : Option Nat)
  | unstake (userID : Int) (now : Time) (fault : Option Nat)
  | transfer (fromUserID toUserID : Int) (amount : ℚ) (now : Time) (fault : Option Nat)

/-- The database after one call (whether it succeeded or failed). -/
def applyCall (db : DB) : Call → DB
  | .convert u p now f => (ConvertPointsToTokens db u p now f).1
  | .stake u a d now f => (StakeTokens db u a d now f).1
  | .unstake u now f => (UnstakeTokens db u now f).1
  | .transfer a b x now f => (TransferTokens db a b x now f).1

/-- The database after a finite sequence of calls. -/
def runCalls (db : DB) (cs : List Call) : DB := cs.foldl applyCall db

/-- Every points balance, token balance and staked amount is non-negative. -/
def NonNeg (db : DB) : Prop :=
  (∀ u p, db.users u = some p → 0 ≤ p) ∧
  (∀ u r, db.tokens u = some r → 0 ≤ r.balance ∧ 0 ≤ r.stakedAmount)

/-- A sample state: user 1 has 200 points and a token record with balance 100, user 2
has 50 points and no token record. -/
def sampleDB : DB :=
  { users := fun u => if u = 1 then some 200 else if u = 2 then some 50 else none,
    tokens := fun u =>
      if u = 1 then
        some { id := 1, balance := 100, stakedAmount := 0, lastStakeDate := none,
               stakeDurationDays := none, stakeEndDate := none, createdAt := 0, updatedAt := 0 }
      else none,
    txns := [],
    nextTxnID := 1,
    nextTokenID := 2 }

/-- The request binding of `ConvertRequest` (`binding:"required,min=1"` on `Points`):
the decoded value is not the zero value and is at least 1. -/
def ConvertRequest.valid (points : Int) : Bool := decide (points ≠ 0) && decide (1 ≤ points)

/-- The handler `convertPoints` on a request whose body decodes to `points`, for the
authenticated `userID`: the database afterwards and the HTTP status of the response. -/
def convertPoints (db : DB) (userID : Int) (points : Int) (now : Time) (fault : Option Nat) :
    DB × Nat :=
  if ConvertRequest.valid points then
    match ConvertPointsToTokens db userID points now fault with
    | (db2, .error e) => (db2, if e = .ErrInsufficientBalance then 400 else 500)
    | (db2, .ok _) => (db2, 200)
  else (db, 400)

/-- The first scenario of the specification: the account of user 1 has 200 points and a
token record with balance 0. -/
def scenarioDB : DB :=
  { users := fun u => if u = 1 then some 200 else none,
    tokens := fun u =>
      if u = 1 then
        some { id := 1, balance := 0, stakedAmount := 0, lastStakeDate := none,
               stakeDurationDays := none, stakeEndDate := none, createdAt := 0, updatedAt := 0 }
      else none,
    txns := [],
    nextTxnID := 1,
    nextTokenID := 2 }

/-- The value returned by one call. -/
def callResult (db : DB) : Call → Except Err Transaction
  | .convert u p now f => (ConvertPointsToTokens db u p now f).2
  | .stake u a d now f => (StakeTokens db u a d now f).2
  | .unstake u now f => (UnstakeTokens db u now f).2
  | .transfer a b x now f => (TransferTokens db a b x now f).2

/-- The call is an `UnstakeTokens` on `userID` whose transaction commits in state `db`. -/
def commitsUnstake (db : DB) (userID : Int) : Call → Bool
  | .unstake w now f =>
    decide (w = userID) &&
      (match UnstakeTokensTx db w now f with
       | .ok _ => true
       | .error _ => false)
  | _ => false

/-- No call of the sequence, run from `db`, is an `UnstakeTokens` on `userID` whose
transaction commits. -/
def noUnstakeCommit (userID : Int) : DB → List Call → Bool
  | _, [] => true
  | db, c :: cs => !commitsUnstake db userID c && noUnstakeCommit userID (applyCall db c) cs

set_option linter.dupNamespace false in
/-- The Go struct `Token`. -/
structure Token where
  ID : Int
  UserID : Int
  Balance : ℚ
  StakedAmount : ℚ
  LastStakeDate : Time
  StakeDuration : Int
  StakeEndDate : Time
  CreatedAt : Time
  UpdatedAt : Time
  deriving DecidableEq, Repr

/-- The zero value of `time.Time` (1 January of year 1, UTC) in seconds. -/
def zeroTime : Time := -62135596800

/-- The Go function `GetUserTokens`: one `SELECT` of the record of `userID`.  An absent
record gives the zero `Token` with `UserID` set; the `Scan` of a NULL stake column into
`time.Time` or `int` is an error. -/
def GetUserTokens (db : DB) (userID : Int) (fails : Bool) : Except Err Token :=
  if fails then .error .ErrStorage else
  match db.tokens userID with
  | none =>
    .ok { ID := 0, UserID := userID, Balance := 0, StakedAmount := 0,
          LastStakeDate := zeroTime, StakeDuration := 0, StakeEndDate := zeroTime,
          CreatedAt := zeroTime, UpdatedAt := zeroTime }
  | some r =>
    match r.lastStakeDate, r.stakeDurationDays, r.stakeEndDate with
    | some s, some d, some e =>
      .ok { ID := r.id, UserID := userID, Balance := r.balance,
            StakedAmount := r.stakedAmount, LastStakeDate := s, StakeDuration := d,
            StakeEndDate := e, CreatedAt := r.createdAt, UpdatedAt := r.updatedAt }
    | _, _, _ => .error .ErrScan

/-- A ledger operation: a mutating call or one of the three queries `GetUserTokens`,
`GetTransaction`, `GetUserTransactions` (with their arguments). -/
inductive Op where
  | call (c : Call)
  | getUserTokens (userID : Int)
  | getTransaction (id : Int)
  | getUserTransactions (userID : Int) (limit offset : Int)

/-- The database after one ledger operation; the queries are `SELECT` statements and
write nothing. -/
def applyOp (db : DB) : Op → DB
  | .call c => applyCall db c
  | .getUserTokens _ => db
  | .getTransaction _ => db
  | .getUserTransactions _ _ _ => db

/-- The database after a finite sequence of ledger operations. -/
def runOps (db : DB) (ops : List Op) : DB := ops.foldl applyOp db

/-- The stake-field invariant of one record: the staked amount is positive exactly when the
stake end date is set, and a set end date is the start date plus the duration in days. -/
def StakeFieldsOK (r : TokenRow) : Prop :=
  (0 < r.stakedAmount ↔ r.stakeEndDate.isSome = true) ∧
  (∀ e, r.stakeEndDate = some e →
    ∃ s d, r.lastStakeDate = some s ∧ r.stakeDurationDays = some d ∧ e = s + 86400 * d)

/-- The stake-field invariant of a state: every stored record satisfies it. -/
def StakeInv (db : DB) : Prop := ∀ u r, db.tokens u = some r → StakeFieldsOK r

/-- The ids of the log are pairwise distinct. -/
def DistinctIDs (db : DB) : Prop := (db.txns.map TxnRow.id).Nodup

/-- The id sequence of `token_transactions` is ahead of every id in the log. -/
def SeqAhead (db : DB) : Prop := ∀ r ∈ db.txns, r.id < db.nextTxnID

/-- The sample state after user 1 staked 50 tokens for 30 days at time 0: balance 50,
staked amount 50, stake end date 2592000. -/
def stakedDB : DB := (StakeTokens sampleDB 1 50 30 0 none).1

/-- The state `stakedDB` after user 1 unstaked at the end of the stake period: the record of
user 1 is Idle again, with the stake columns set to NULL by `UnstakeTokens`. -/
def unstakedDB : DB := (UnstakeTokens stakedDB 1 2592000 none).1

/-- The call is a `ConvertPointsToTokens`. -/
def Call.isConvert : Call → Bool
  | .convert _ _ _ _ => true
  | _ => false

/-- The storage fault injected into a call. -/
def Call.fault : Call → Option Nat
  | .convert _ _ _ f => f
  | .stake _ _ _ _ f => f
  | .unstake _ _ f => f
  | .transfer _ _ _ _ f => f

/-- The `Scan` of one row of `token_transactions` into a `Transaction`, as written in
`GetTransaction` and `GetUserTransactions`. -/
def scanTransaction (r : TxnRow) : Transaction :=
  { ID := r.id, UserID := r.userID, Type_ := r.type, Amount := r.amount,
    PointsConverted := r.pointsConverted, Description := r.description,
    CreatedAt := r.createdAt, UpdatedAt := r.updatedAt }

/-- The order of `ORDER BY created_at DESC`: `a` may come before `b`. -/
def newerFirst (a b : TxnRow) : Prop := b.createdAt ≤ a.createdAt

instance newerFirst.decidable : DecidableRel newerFirst :=
  fun a b => inferInstanceAs (Decidable (b.createdAt ≤ a.createdAt))

instance newerFirst.total : IsTotal TxnRow newerFirst :=
  ⟨fun a b => le_total b.createdAt a.createdAt⟩

instance newerFirst.trans : IsTrans TxnRow newerFirst :=
  ⟨fun _ _ _ hab hbc => le_trans hbc hab⟩

/-- The Go function `GetUserTransactions`: the rows of `userID`, `ORDER BY created_at DESC
LIMIT limit OFFSET offset`, each scanned into a `Transaction`.  Rows with equal `created_at`
are kept in insertion order (SQL leaves their order open); a negative `LIMIT` or `OFFSET`
is rejected by the database. -/
def GetUserTransactions (db : DB) (userID : Int) (limit offset : Int) (fails : Bool) :
    Except Err (List Transaction) :=
  if fails then .error .ErrStorage else
  if limit < 0 ∨ offset < 0 then .error .ErrStorage else
  .ok (((((db.txns.filter (fun r => r.userID == userID)).insertionSort newerFirst).drop
    offset.toNat).take limit.toNat).map scanTransaction)

/-- The statements of `ConvertPointsToTokens` (storage not failing) when other transactions
commit between its `SELECT points` and its `UPDATE users`: `concurrent` maps the committed
database read by the `SELECT` to the committed database the `UPDATE` works on.  When the
`UPDATE` affects no row the function returns `sql.ErrNoRows` and the deferred `Rollback`
discards the inserted EARN row. -/
def ConvertPointsToTokensInterleaved (db : DB) (userID : Int) (points : Int) (now : Time)
    (concurrent : DB → DB) : DB × Except Err Transaction :=
  let tokenAmount : ℚ := tokenAmount points
  match db.users userID with
  | none => (db, .error .ErrNoRows)
  | some userPoints =>
    if userPoints < points then (db, .error .ErrInsufficientPoints) else
    let db1 := concurrent db
    let ins := insertTransaction db1 userID "EARN" tokenAmount points none none
      "Points conversion" now
    match ins.1.users userID with
    | none => (db1, .error .ErrNoRows)
    | some p =>
      ({ ins.1 with users := Function.update ins.1.users userID (some (p - points)) },
       .ok { ID := ins.2, UserID := userID, Type_ := "EARN", Amount := tokenAmount,
             PointsConverted := points, Description := "Points conversion",
             CreatedAt := now, UpdatedAt := now })

/-- The stake start date, duration and end date of an account, an absent record counting
as having none. -/
def stakeDatesOf (db : DB) (userID : Int) : Option Time × Option Int × Option Time :=
  match db.tokens userID with
  | none => (none, none, none)
  | some r => (r.lastStakeDate, r.stakeDurationDays, r.stakeEndDate)

/-- The errors of the ledger taxonomy (the seven error values of package `token`). -/
def Err.inTaxonomy : Err → Bool
  | .ErrInsufficientPoints => true
  | .ErrInsufficientBalance => true
  | .ErrInvalidAmount => true
  | .ErrInvalidStakePeriod => true
  | .ErrAlreadyStaked => true
  | .ErrNoStakedTokens => true
  | .ErrStakePeriodActive => true
  | _ => false

/-- The request binding of `StakeRequest`: `amount` is `required,gt=0` and `durationDays`
is `required,min=30`. -/
def StakeRequest.valid (amount : ℚ) (durationDays : Int) : Bool :=
  decide (amount ≠ 0) && decide (0 < amount) && decide (durationDays ≠ 0) &&
    decide (30 ≤ durationDays)

/-- The handler `stakeTokens`: the database afterwards and the HTTP status. -/
def stakeTokens (db : DB) (userID : Int) (amount : ℚ) (durationDays : Int) (now : Time)
    (fault : Option Nat) : DB × Nat :=
  if StakeRequest.valid amount durationDays then
    match StakeTokens db userID amount durationDays now fault with
    | (db2, .error e) =>
      (db2, if e = .ErrInsufficientBalance ∨ e = .ErrInvalidAmount ∨
               e = .ErrInvalidStakePeriod ∨ e = .ErrAlreadyStaked then 400 else 500)
    | (db2, .ok _) => (db2, 200)
  else (db, 400)

/-- The handler `unstakeTokens`: the database afterwards and the HTTP status. -/
def unstakeTokens (db : DB) (userID : Int) (now : Time) (fault : Option Nat) : DB × Nat :=
  match UnstakeTokens db userID now fault with
  | (db2, .error e) =>
    (db2, if e = .ErrNoStakedTokens ∨ e = .ErrStakePeriodActive then 400 else 500)
  | (db2, .ok _) => (db2, 200)

/-- The request binding of `TransferRequest`: `toUserId` is `required` and `amount` is
`required,gt=0`. -/
def TransferRequest.valid (toUserID : Int) (amount : ℚ) : Bool :=
  decide (toUserID ≠ 0) && decide (amount ≠ 0) && decide (0 < amount)

/-- The handler `transferTokens`: the database afterwards and the HTTP status; a transfer
to the caller's own account is rejected before the service is called. -/
def transferTokens (db : DB) (userID toUserID : Int) (amount : ℚ) (now : Time)
    (fault : Option Nat) : DB × Nat :=
  if TransferRequest.valid toUserID amount then
    if userID = toUserID then (db, 400) else
    match TransferTokens db userID toUserID amount now fault with
    | (db2, .error e) =>
      (db2, if e = .ErrInsufficientBalance ∨ e = .ErrInvalidAmount then 400 else 500)
    | (db2, .ok _) => (db2, 200)
  else (db, 400)

/-- A log of three rows of user 1 written at times 1, 2 and 3, and one row of user 2. -/
def historyDB : DB :=
  { users := fun _ => none,
    tokens := fun _ => none,
    txns :=
      [{ id := 1, userID := 1, type := "EARN", amount := 10, pointsConverted := 100,
         fromUserID := none, toUserID := none, description := "Points conversion",
         createdAt := 1, updatedAt := 1 },
       { id := 2, userID := 2, type := "EARN", amount := 5, pointsConverted := 50,
         fromUserID := none, toUserID := none, description := "Points conversion",
         createdAt := 2, updatedAt := 2 },
       { id := 3, userID := 1, type := "STAKE", amount := 4, pointsConverted := 0,
         fromUserID := none, toUserID := none, description := "Token staking",
         createdAt := 2, updatedAt := 2 },
       { id := 4, userID := 1, type := "TRANSFER", amount := 3, pointsConverted := 0,
         fromUserID := some 1, toUserID := some 2, description := "Token transfer",
         createdAt := 3, updatedAt := 3 }],
    nextTxnID := 5,
    nextTokenID := 1 }

end Token

/-! # Definitions of the other services -/

/-!
## Face detection (`backend/internal/service/face/service.go`)

An image is its bounds and the `RGBA()` values of its pixels.  Go `int` is an unbounded
integer and `/` is the truncating division; the skin ratio is an exact rational.  The two
scan loops of `DetectFace` carry a fuel argument: `none` means the fuel ran out before
the loop ended.
-/

namespace Face

/-- The Go type `image.Point`. -/
structure Point where
  X : Int
  Y : Int
  deriving DecidableEq, Repr

/-- The Go type `image.Rectangle`. -/
structure Rectangle where
  Min : Point
  Max : Point
  deriving DecidableEq, Repr

/-- The width `r.Dx()`. -/
def Rectangle.Dx (r : Rectangle) : Int := r.Max.X - r.Min.X

/-- The height `r.Dy()`. -/
def Rectangle.Dy (r : Rectangle) : Int := r.Max.Y - r.Min.Y

/-- The Go function `image.Rect`: the rectangle with the coordinates put in order. -/
def Rect (x0 y0 x1 y1 : Int) : Rectangle :=
  { Min := { X := if x0 > x1 then x1 else x0, Y := if y0 > y1 then y1 else y0 },
    Max := { X := if x0 > x1 then x0 else x1, Y := if y0 > y1 then y0 else y1 } }

/-- The Go method `p.In(r)`. -/
def Point.In (p : Point) (r : Rectangle) : Bool :=
  decide (r.Min.X ≤ p.X) && decide (p.X < r.Max.X) &&
    decide (r.Min.Y ≤ p.Y) && decide (p.Y < r.Max.Y)

/-- The four `uint32` values returned by `color.Color.RGBA()`. -/
structure RGBA where
  R : Nat
  G : Nat
  B : Nat
  A : Nat
  deriving DecidableEq, Repr

/-- A value of the interface `image.Image`: `Bounds()` and the `RGBA()` of `At(x, y)`. -/
structure Image where
  Bounds : Rectangle
  At : Int → Int → RGBA

set_option linter.dupNamespace false in
/-- The Go struct `Face`; the score `0.8` is an exact rational. -/
structure Face where
  Box : Rectangle
  Score : ℚ
  Landmarks : List Point
  deriving DecidableEq, Repr

/-- The Go struct `DetectionResult` (its `Error` field is never set). -/
structure DetectionResult where
  Faces : List Face
  deriving DecidableEq, Repr

/-- The Go function `isSkinColor`. -/
def isSkinColor (c : RGBA) : Bool :=
  let r := c.R >>> 8
  let g := c.G >>> 8
  let b := c.B >>> 8
  decide (r > 150) && decide (g > 100) && decide (b > 50) && decide (r > g) && decide (g > b)

/-- The Go function `isFaceBlock`: the two counted loops over `dy` and `dx` count the skin
pixels of the block that lie inside the bounds. -/
def isFaceBlock (img : Image) (x y size : Int) : Bool :=
  let skinPixels : Nat :=
    ((List.range size.toNat).map (fun dy =>
      ((List.range size.toNat).filter (fun dx =>
        decide (x + (dx : Int) < img.Bounds.Max.X) && decide (y + (dy : Int) < img.Bounds.Max.Y) &&
          isSkinColor (img.At (x + (dx : Int)) (y + (dy : Int))))).length)).sum
  let threshold : ℚ := 0.4
  let ratio : ℚ := (skinPixels : ℚ) / ((size * size : Int) : ℚ)
  decide (ratio > threshold)

/-- The face built by `DetectFace` for the block at `(x, y)`. -/
def blockFace (x y blockSize : Int) : Face :=
  { Box := Rect x y (x + blockSize) (y + blockSize),
    Score := 0.8,
    Landmarks :=
      [{ X := x + blockSize.tdiv 3, Y := y + blockSize.tdiv 3 },
       { X := x + (2 * blockSize).tdiv 3, Y := y + blockSize.tdiv 3 },
       { X := x + blockSize.tdiv 2, Y := y + (2 * blockSize).tdiv 3 }] }

/-- The inner loop of `DetectFace` from column `x` on: `some (some face)` when a face block
is found (the loop breaks), `some none` when the row ends without one, `none` when the fuel
runs out. -/
def scanRow (img : Image) (blockSize y : Int) : Nat → Int → Option (Option Face)
  | 0, _ => none
  | fuel + 1, x =>
    if x < img.Bounds.Dx - blockSize then
      if isFaceBlock img x y blockSize then some (some (blockFace x y blockSize))
      else scanRow img blockSize y fuel (x + blockSize.tdiv 2)
    else some none

/-- The outer loop of `DetectFace` from row `y` on: the list of faces at the end of the
loop, `none` when the fuel runs out. -/
def scanRows (img : Image) (blockSize : Int) (rowFuel : Nat) : Nat → Int → Option (List Face)
  | 0, _ => none
  | fuel + 1, y =>
    if y < img.Bounds.Dy - blockSize then
      match scanRow img blockSize y rowFuel 0 with
      | none => none
      | some (some face) => some [face]
      | some none => scanRows img blockSize rowFuel fuel (y + blockSize.tdiv 2)
    else some []

/-- The Go function `DetectFace` on an image or `nil`; `none` when the fuel runs out. -/
def DetectFace (fuel : Nat) (img : Option Image) : Option (Except String DetectionResult) :=
  match img with
  | none => some (.error "input image is nil")
  | some img =>
    let width := img.Bounds.Dx
    let height := img.Bounds.Dy
    if width < 64 ∨ height < 64 then some (.ok { Faces := [] })
    else
      let blockSize := width.tdiv 4
      match scanRows img blockSize fuel fuel 0 with
      | none => none
      | some faces => some (.ok { Faces := faces })

/-- A 64 × 64 image whose pixels all have the skin colour (200, 150, 100). -/
def skinImage : Image :=
  { Bounds := { Min := { X := 0, Y := 0 }, Max := { X := 64, Y := 64 } },
    At := fun _ _ => { R := 51400, G := 38550, B := 25700, A := 65535 } }

/-- A 32 × 32 image of the same colour. -/
def smallImage : Image :=
  { Bounds := { Min := { X := 0, Y := 0 }, Max := { X := 32, Y := 32 } },
    At := fun _ _ => { R := 51400, G := 38550, B := 25700, A := 65535 } }

end Face

/-!
## Verification success rate (`backend/internal/service/analytics/service.go`)
-/

namespace Analytics

/-- The Go function `calculateSuccessRate`; the two `float64` operations are rounded by
`rnd` (the identity for exact arithmetic, `Float64.round` for the arithmetic of Go). -/
def calculateSuccessRate (rnd : ℚ → ℚ) (total successful : ℚ) : ℚ :=
  if total > 0 then rnd (rnd (successful / total) * 100) else 0

/-- The metrics that `UpdateUserEngagement` inserts into `user_engagement`, from the
activity count and the two verification counts it has read. -/
def engagementMetrics (rnd : ℚ → ℚ)
    (activityCount totalVerifications successfulVerifications : ℚ) : List (String × ℚ) :=
  [("ACTIVITY_COUNT", activityCount),
   ("VERIFICATION_SUCCESS_RATE",
    calculateSuccessRate rnd totalVerifications successfulVerifications)]

end Analytics

/-!
## Majority tally (`backend/internal/service/enterprise/service.go`)

A Go map is a list of key-value pairs with distinct keys; `json.Unmarshal` of a raw response
into a Go string is a parameter `unmarshal`, whose value is the decoded choice when
`json.Unmarshal` returns no error.  The rounding of the `float64` operations is a parameter
`rnd`: the identity for exact arithmetic, `Float64.round` for the arithmetic of Go.
-/

namespace Enterprise

/-- One element of the `responses` slice: the raw JSON response and its weight. -/
structure ResponseRow where
  Response : String
  Weight : ℚ
  deriving DecidableEq, Repr

/-- The statement `counts[choice]++` on a map. -/
def increment (counts : List (String × Nat)) (choice : String) : List (String × Nat) :=
  match counts with
  | [] => [(choice, 1)]
  | (c, n) :: rest =>
    if c = choice then (c, n + 1) :: rest else (c, n) :: increment rest choice

/-- The first loop of `calculateMajorityResults`: the map `counts` and the number `total`
after all responses; a response that does not decode is skipped. -/
def tally (unmarshal : String → Option String) (responses : List ResponseRow) :
    List (String × Nat) × Nat :=
  responses.foldl
    (fun acc resp =>
      match unmarshal resp.Response with
      | none => acc
      | some choice => (increment acc.1 choice, acc.2 + 1))
    ([], 0)

/-- The map returned by `calculateMajorityResults`: its keys `type`, `total_votes` and
`results`. -/
structure MajorityResults where
  type : String
  total_votes : Int
  results : List (String × ℚ)
  deriving DecidableEq, Repr

/-- The Go function `calculateMajorityResults`; the percentage of a choice is
`float64(count) / float64(total) * 100`, each operation rounded by `rnd`. -/
def calculateMajorityResults (rnd : ℚ → ℚ) (unmarshal : String → Option String)
    (responses : List ResponseRow) : MajorityResults :=
  let t := tally unmarshal responses
  { type := "MAJORITY",
    total_votes := (t.2 : Int),
    results := t.1.map (fun p => (p.1, rnd (rnd ((p.2 : ℚ) / (t.2 : ℚ)) * 100))) }

/-- The choices of the responses that decode to a string, in the order of the responses
(the reference list against which the tally is stated). -/
def decodedChoices (unmarshal : String → Option String) (responses : List ResponseRow) :
    List String :=
  responses.filterMap (fun r => unmarshal r.Response)

/-- A decoder for examples: a response decodes when it is not empty. -/
def sampleUnmarshal (raw : String) : Option String := if raw = "" then none else some raw

/-- Four responses: yes, no, one that does not decode, yes. -/
def sampleResponses : List ResponseRow :=
  [{ Response := "yes", Weight := 1 }, { Response := "no", Weight := 1 },
   { Response := "", Weight := 1 }, { Response := "yes", Weight := 1 }]

end Enterprise

/-! # Theorems on the float64 rounding -/

namespace Float64

theorem pow2_pos (e : Int) : 0 < pow2 e := by
  unfold pow2
  split_ifs <;> positivity

theorem ulp_pos (q : ℚ) : 0 < ulp q := pow2_pos _

theorem roundHalfEven_nonneg {q : ℚ} (h : 0 ≤ q) : 0 ≤ roundHalfEven q := by
  have hf : 0 ≤ q.num / (q.den : Int) :=
    Int.ediv_nonneg (Rat.num_nonneg.mpr h) (by positivity)
  unfold roundHalfEven
  simp only
  split_ifs <;> omega

theorem round_zero : round 0 = 0 := by
  simp [round]

theorem round_nonneg {q : ℚ} (h : 0 ≤ q) : 0 ≤ round q := by
  unfold round
  split_ifs with h0 h1
  · exact le_refl _
  · exact mul_nonneg
      (by exact_mod_cast roundHalfEven_nonneg (div_nonneg h (ulp_pos _).le))
      (ulp_pos _).le
  · exact absurd (lt_of_le_of_ne h (Ne.symm h0)) h1

theorem round_three_tenths : round (3 / 10) = 5404319552844595 / 18014398509481984 := by
  with_unfolding_all rfl

end Float64

/-! # Theorems on the token ledger -/

namespace Token

/-! ## Values of the float64 expressions -/

theorem reward_nonneg {g : ℚ} (h : 0 ≤ g) : 0 ≤ reward g :=
  Float64.round_nonneg (mul_nonneg h (Float64.round_nonneg (by norm_num)))

theorem tokenAmount_hundred : tokenAmount 100 = 10 := by
  with_unfolding_all rfl

theorem tokenAmount_three : tokenAmount 3 = 1351079888211149 / 4503599627370496 := by
  with_unfolding_all rfl

theorem tokenAmount_minus_five : tokenAmount (-5) = -(1 / 2) := by
  with_unfolding_all rfl

theorem ConvertPointsToTokensTx_ok {db : DB} {u pts : Int} {now : Time} {f : Option Nat}
    {db2 : DB} {t : Transaction}
    (h : ConvertPointsToTokensTx db u pts now f = .ok (db2, t)) :
    ∃ p, db.users u = some p ∧ pts ≤ p ∧
      db2 = { users := Function.update db.users u (some (p - pts)),
              tokens := db.tokens,
              txns := db.txns ++ [{ id := db.nextTxnID, userID := u, type := "EARN",
                                    amount := tokenAmount pts, pointsConverted := pts,
                                    fromUserID := none, toUserID := none,
                                    description := "Points conversion", createdAt := now,
                                    updatedAt := now }],
              nextTxnID := db.nextTxnID + 1,
              nextTokenID := db.nextTokenID } ∧
      t = { ID := db.nextTxnID, UserID := u, Type_ := "EARN", Amount := tokenAmount pts,
            PointsConverted := pts, Description := "Points conversion",
            CreatedAt := now, UpdatedAt := now } := by
  unfold ConvertPointsToTokensTx at h
  rcases hu : db.users u with _ | p <;> simp only [hu, insertTransaction] at h <;>
    split_ifs at h
  simp only [Except.ok.injEq, Prod.mk.injEq] at h
  exact ⟨p, rfl, by omega, h.1.symm, h.2.symm⟩

theorem StakeTokensTx_ok {db : DB} {u : Int} {a : ℚ} {d : Int} {now : Time} {f : Option Nat}
    {db2 : DB} {id : Int}
    (h : StakeTokensTx db u a d now f = .ok (db2, id)) :
    ∃ r, db.tokens u = some r ∧ r.stakedAmount ≤ 0 ∧ a ≤ r.balance ∧
      db2 = { users := db.users,
              tokens := Function.update db.tokens u
                (some { id := r.id, balance := r.balance - a, stakedAmount := a,
                        lastStakeDate := some now, stakeDurationDays := some d,
                        stakeEndDate := some (AddDate now d),
                        createdAt := r.createdAt, updatedAt := r.updatedAt }),
              txns := db.txns ++ [{ id := db.nextTxnID, userID := u, type := "STAKE",
                                    amount := a, pointsConverted := 0,
                                    fromUserID := none, toUserID := none,
                                    description := "Token staking", createdAt := now,
                                    updatedAt := now }],
              nextTxnID := db.nextTxnID + 1,
              nextTokenID := db.nextTokenID } ∧
      id = db.nextTxnID := by
  unfold StakeTokensTx at h
  rcases hu : db.tokens u with _ | r
  · simp only [hu] at h
    split_ifs at h
  · simp only [hu, insertTransaction] at h
    split_ifs at h with h0 h1 h2 h3 h4
    simp only [Except.ok.injEq, Prod.mk.injEq] at h
    exact ⟨r, rfl, not_lt.mp h2, h4, h.1.symm, h.2.symm⟩

theorem UnstakeTokensTx_ok {db : DB} {u : Int} {now : Time} {f : Option Nat}
    {db2 : DB} {id : Int}
    (h : UnstakeTokensTx db u now f = .ok (db2, id)) :
    ∃ r e, db.tokens u = some r ∧ r.stakeEndDate = some e ∧ r.stakedAmount ≠ 0 ∧ e ≤ now ∧
      db2 = { users := db.users,
              tokens := Function.update db.tokens u
                (some { id := r.id,
                        balance := r.balance + Float64.round r.stakedAmount +
                          reward (Float64.round r.stakedAmount),
                        stakedAmount := 0,
                        lastStakeDate := none, stakeDurationDays := none,
                        stakeEndDate := none,
                        createdAt := r.createdAt, updatedAt := r.updatedAt }),
              txns := db.txns ++ [{ id := db.nextTxnID, userID := u, type := "UNSTAKE",
                                    amount := Float64.round
                                      (Float64.round r.stakedAmount +
                                        reward (Float64.round r.stakedAmount)),
                                    pointsConverted := 0,
                                    fromUserID := none, toUserID := none,
                                    description := "Token unstaking with reward",
                                    createdAt := now, updatedAt := now }],
              nextTxnID := db.nextTxnID + 1,
              nextTokenID := db.nextTokenID } ∧
      id = db.nextTxnID := by
  unfold UnstakeTokensTx at h
  rcases hu : db.tokens u with _ | r
  · simp only [hu] at h
    split_ifs at h
  · rcases he : r.stakeEndDate with _ | e
    · simp only [hu, he] at h
      split_ifs at h
    · simp only [hu, he, insertTransaction] at h
      split_ifs at h with h0 h1 h2 h3 h4 h5 h6
      simp only [Except.ok.injEq, Prod.mk.injEq] at h
      exact ⟨r, e, rfl, he, h2, not_lt.mp h3, h.1.symm, h.2.symm⟩

theorem TransferTokensTx_ok {db : DB} {u v : Int} {a : ℚ} {now : Time} {f : Option Nat}
    {db2 : DB} {id : Int}
    (h : TransferTokensTx db u v a now f = .ok (db2, id)) :
    ∃ r, db.tokens u = some r ∧ a ≤ r.balance ∧
      db2 = (insertTransaction
              (upsertCredit
                { db with
                  tokens := Function.update db.tokens u (some { r with balance := r.balance - a }) }
                v a now)
              u "TRANSFER" a 0 (some u) (some v) "Token transfer" now).1 ∧
      id = (upsertCredit
                { db with
                  tokens := Function.update db.tokens u (some { r with balance := r.balance - a }) }
                v a now).nextTxnID := by
  unfold TransferTokensTx at h
  rcases hu : db.tokens u with _ | r
  · simp only [hu] at h
    split_ifs at h
  · simp only [hu] at h
    split_ifs at h with h0 h1 h2
    simp only [Except.ok.injEq] at h
    exact ⟨r, rfl, h2, (congrArg Prod.fst h).symm, (congrArg Prod.snd h).symm⟩

theorem NonNeg_ConvertPointsToTokens {db : DB} (h : NonNeg db) (u pts : Int) (now : Time)
    (f : Option Nat) : NonNeg (ConvertPointsToTokens db u pts now f).1 := by
  unfold ConvertPointsToTokens
  cases hr : ConvertPointsToTokensTx db u pts now f with
  | error e => exact h
  | ok x =>
    obtain ⟨db2, t⟩ := x
    obtain ⟨q, hq, hle, hdb, -⟩ := ConvertPointsToTokensTx_ok hr
    subst hdb
    refine ⟨?_, h.2⟩
    intro w pw hw
    simp only [Function.update_apply] at hw
    split_ifs at hw with hwu
    · cases hw; omega
    · exact h.1 w pw hw

theorem NonNeg_StakeTokens {db : DB} (h : NonNeg db) (u : Int) (a : ℚ) (d : Int) (now : Time)
    (f : Option Nat) : NonNeg (StakeTokens db u a d now f).1 := by
  unfold StakeTokens
  split_ifs with ha hd
  · exact h
  · exact h
  · cases hr : StakeTokensTx db u a d now f with
    | error e => exact h
    | ok x =>
      obtain ⟨db2, id⟩ := x
      obtain ⟨r, hu, -, hle, hdb, -⟩ := StakeTokensTx_ok hr
      subst hdb
      refine ⟨h.1, ?_⟩
      intro w rw hw
      simp only [Function.update_apply] at hw
      split_ifs at hw with hwu
      · cases hw
        exact ⟨sub_nonneg.mpr hle, le_of_lt (not_le.mp ha)⟩
      · exact h.2 w rw hw

theorem NonNeg_UnstakeTokens {db : DB} (h : NonNeg db) (u : Int) (now : Time)
    (f : Option Nat) : NonNeg (UnstakeTokens db u now f).1 := by
  unfold UnstakeTokens
  cases hr : UnstakeTokensTx db u now f with
  | error e => exact h
  | ok x =>
    obtain ⟨db2, id⟩ := x
    obtain ⟨r, e, hu, -, -, -, hdb, -⟩ := UnstakeTokensTx_ok hr
    subst hdb
    refine ⟨h.1, ?_⟩
    intro w rw hw
    simp only [Function.update_apply] at hw
    split_ifs at hw with hwu
    · cases hw
      obtain ⟨hb, hs⟩ := h.2 u r hu
      refine ⟨?_, le_refl _⟩
      have hg : (0 : ℚ) ≤ Float64.round r.stakedAmount := Float64.round_nonneg hs
      have : (0 : ℚ) ≤ reward (Float64.round r.stakedAmount) := reward_nonneg hg
      simp only
      linarith
    · exact h.2 w rw hw

theorem NonNeg_upsertCredit {db : DB} (h : NonNeg db) (v : Int) {a : ℚ} (ha : 0 ≤ a)
    (now : Time) : NonNeg (upsertCredit db v a now) := by
  unfold upsertCredit
  rcases hv : db.tokens v with _ | r
  · refine ⟨h.1, ?_⟩
    intro w rw hw
    simp only [Function.update_apply] at hw
    split_ifs at hw with hwv
    · cases hw
      exact ⟨ha, le_refl _⟩
    · exact h.2 w rw hw
  · refine ⟨h.1, ?_⟩
    intro w rw hw
    simp only [Function.update_apply] at hw
    split_ifs at hw with hwv
    · cases hw
      obtain ⟨hb, hs⟩ := h.2 v r hv
      exact ⟨add_nonneg hb ha, hs⟩
    · exact h.2 w rw hw

theorem NonNeg_TransferTokens {db : DB} (h : NonNeg db) (u v : Int) (a : ℚ) (now : Time)
    (f : Option Nat) : NonNeg (TransferTokens db u v a now f).1 := by
  unfold TransferTokens
  split_ifs with ha
  · exact h
  · cases hr : TransferTokensTx db u v a now f with
    | error e => exact h
    | ok x =>
      obtain ⟨db2, id⟩ := x
      obtain ⟨r, hu, hle, hdb, -⟩ := TransferTokensTx_ok hr
      subst hdb
      have h1 : NonNeg { db with
          tokens := Function.update db.tokens u (some { r with balance := r.balance - a }) } := by
        refine ⟨h.1, ?_⟩
        intro w rw hw
        simp only [Function.update_apply] at hw
        split_ifs at hw with hwu
        · cases hw
          exact ⟨sub_nonneg.mpr hle, (h.2 u r hu).2⟩
        · exact h.2 w rw hw
      have h2 := NonNeg_upsertCredit h1 v (le_of_lt (not_le.mp ha)) now
      exact ⟨h2.1, h2.2⟩

theorem NonNeg_applyCall {db : DB} (h : NonNeg db) (c : Call) : NonNeg (applyCall db c) := by
  cases c with
  | convert u p now f => exact NonNeg_ConvertPointsToTokens h u p now f
  | stake u a d now f => exact NonNeg_StakeTokens h u a d now f
  | unstake u now f => exact NonNeg_UnstakeTokens h u now f
  | transfer u v a now f => exact NonNeg_TransferTokens h u v a now f

theorem NonNeg_runCalls (cs : List Call) : ∀ {db : DB}, NonNeg db → NonNeg (runCalls db cs) := by
  induction cs with
  | nil => intro db h; exact h
  | cons c cs ih => intro db h; exact ih (NonNeg_applyCall h c)

theorem balanceOf_upsertCredit (db : DB) (v w : Int) (a : ℚ) (now : Time) :
    balanceOf (upsertCredit db v a now) w =
      if w = v then balanceOf db v + a else balanceOf db w := by
  unfold upsertCredit balanceOf
  rcases hv : db.tokens v with _ | r <;> by_cases hwv : w = v
  · subst hwv; simp [hv]
  · simp [hwv, Function.update_apply]
  · subst hwv; simp [hv]
  · simp [hwv, Function.update_apply]

theorem GetTransaction_append_ok (db : DB) (row : TxnRow) :
    ∃ t, GetTransaction { db with txns := db.txns ++ [row] } row.id false = .ok t := by
  unfold GetTransaction
  rcases hfind : (db.txns ++ [row]).find? (fun r => r.id == row.id) with _ | r
  · rw [List.find?_eq_none] at hfind
    have := hfind row (by simp)
    simp at this
  · simp [hfind]

theorem GetTransaction_insertTransaction_ok (db : DB) (userID : Int) (type : String)
    (amount : ℚ) (pointsConverted : Int) (fromUserID toUserID : Option Int)
    (description : String) (now : Time) :
    ∃ t, GetTransaction
      (insertTransaction db userID type amount pointsConverted fromUserID toUserID
        description now).1
      (insertTransaction db userID type amount pointsConverted fromUserID toUserID
        description now).2 false = .ok t :=
  GetTransaction_append_ok db
    { id := db.nextTxnID, userID := userID, type := type, amount := amount,
      pointsConverted := pointsConverted, fromUserID := fromUserID, toUserID := toUserID,
      description := description, createdAt := now, updatedAt := now }

theorem GetTransaction_ne_ErrInsufficientBalance (db : DB) (id : Int) (b : Bool) :
    GetTransaction db id b ≠ .error .ErrInsufficientBalance := by
  unfold GetTransaction
  split_ifs
  · simp
  · split <;> simp

/-- C1. Non-negativity: from a state in which every points balance, token balance and
staked amount is non-negative, any finite sequence of ConvertPointsToTokens, StakeTokens,
UnstakeTokens and TransferTokens calls (arbitrary arguments, clock readings and storage
faults, succeeding or failing) leads to a state in which every account has a
non-negative points balance and a non-negative token balance. -/
theorem nonNegativity_reachable (db : DB) (cs : List Call) (h : NonNeg db) :
    ∀ u, (∀ p, (runCalls db cs).users u = some p → 0 ≤ p) ∧
         (∀ r, (runCalls db cs).tokens u = some r → 0 ≤ r.balance) := by
  intro u
  have hn := NonNeg_runCalls cs h
  exact ⟨fun p hp => hn.1 u p hp, fun r hr => (hn.2 u r hr).1⟩

/-- C2. Conservation under transfer: whenever TransferTokens between two distinct
accounts succeeds, the sum of the sender and receiver balances (an absent receiver
counting as 0) is the same after the call as before it. -/
theorem transfer_conserves_sum (db : DB) (u v : Int) (a : ℚ) (now : Time) (f : Option Nat)
    (t : Transaction) (huv : u ≠ v) (h : (TransferTokens db u v a now f).2 = .ok t) :
    balanceOf (TransferTokens db u v a now f).1 u + balanceOf (TransferTokens db u v a now f).1 v
      = balanceOf db u + balanceOf db v := by
  unfold TransferTokens at h ⊢
  split_ifs at h ⊢ with ha
  cases hr : TransferTokensTx db u v a now f with
  | error e => simp [hr] at h
  | ok x =>
    obtain ⟨db2, id⟩ := x
    obtain ⟨r, hu, hle, hdb, -⟩ := TransferTokensTx_ok hr
    subst hdb
    have e1 : ∀ w, balanceOf (insertTransaction
        (upsertCredit { db with
          tokens := Function.update db.tokens u (some { r with balance := r.balance - a }) }
          v a now) u "TRANSFER" a 0 (some u) (some v) "Token transfer" now).1 w
        = balanceOf (upsertCredit { db with
          tokens := Function.update db.tokens u (some { r with balance := r.balance - a }) }
          v a now) w := fun w => rfl
    simp only [e1, balanceOf_upsertCredit, if_neg huv, if_true]
    simp [balanceOf, hu, Function.update_apply, Ne.symm huv]

theorem nonNegativity_reachable_witness :
    NonNeg sampleDB ∧
    ((∀ p, (runCalls sampleDB
        [.convert 1 (-5) 0 none, .transfer 1 2 40 0 none, .stake 1 50 30 0 none,
         .unstake 1 2592000 none, .transfer 2 1 1000 0 (some 3)]).users 1 = some p → 0 ≤ p) ∧
     (∀ r, (runCalls sampleDB
        [.convert 1 (-5) 0 none, .transfer 1 2 40 0 none, .stake 1 50 30 0 none,
         .unstake 1 2592000 none, .transfer 2 1 1000 0 (some 3)]).tokens 1 = some r →
        0 ≤ r.balance)) :=
  have h : NonNeg sampleDB := by
    refine ⟨?_, ?_⟩
    · intro u p hp
      simp only [sampleDB] at hp
      split_ifs at hp <;> simp at hp <;> omega
    · intro u r hr
      simp only [sampleDB] at hr
      split_ifs at hr
      simp at hr
      subst hr
      norm_num
  ⟨h, nonNegativity_reachable sampleDB _ h 1⟩

theorem transfer_conserves_sum_witness :
    (1 : Int) ≠ 2 ∧
    (TransferTokens sampleDB 1 2 40 0 none).2 =
      .ok { ID := 1, UserID := 1, Type_ := "TRANSFER", Amount := 40, PointsConverted := 0,
            Description := "Token transfer", CreatedAt := 0, UpdatedAt := 0 } ∧
    balanceOf (TransferTokens sampleDB 1 2 40 0 none).1 1 +
      balanceOf (TransferTokens sampleDB 1 2 40 0 none).1 2
        = balanceOf sampleDB 1 + balanceOf sampleDB 2 :=
  ⟨by decide, rfl, transfer_conserves_sum sampleDB 1 2 40 0 none _ (by decide) rfl⟩

theorem TransferTokensTx_none {db : DB} {u : Int} {r : TokenRow} (v : Int) {a : ℚ}
    (now : Time) (hu : db.tokens u = some r) (hle : a ≤ r.balance) :
    TransferTokensTx db u v a now none =
      .ok (insertTransaction
            (upsertCredit
              { db with
                tokens := Function.update db.tokens u (some { r with balance := r.balance - a }) }
              v a now)
            u "TRANSFER" a 0 (some u) (some v) "Token transfer" now) := by
  simp [TransferTokensTx, storageFails, hu, hle]

/-- C3. Transfer effect: for amount > 0, a sender whose balance is >= amount and
a receiver different from the sender, TransferTokens (storage not failing) succeeds; the
sender balance decreases by exactly amount, the receiver balance increases by exactly
amount (an absent receiver gets a record with balance = amount), and the log gains exactly
one row, of type TRANSFER, on the sender, with the receiver as counterparty and amount
as amount. -/
theorem transfer_effect (db : DB) (u v : Int) (a : ℚ) (now : Time)
    (ha : 0 < a) (hbal : a ≤ balanceOf db u) (huv : v ≠ u) :
    (∃ t, (TransferTokens db u v a now none).2 = .ok t) ∧
    balanceOf (TransferTokens db u v a now none).1 u = balanceOf db u - a ∧
    balanceOf (TransferTokens db u v a now none).1 v = balanceOf db v + a ∧
    (db.tokens v = none →
      ∃ rv, (TransferTokens db u v a now none).1.tokens v = some rv ∧ rv.balance = a) ∧
    (TransferTokens db u v a now none).1.txns =
      db.txns ++ [{ id := db.nextTxnID, userID := u, type := "TRANSFER", amount := a,
                    pointsConverted := 0, fromUserID := some u, toUserID := some v,
                    description := "Token transfer", createdAt := now, updatedAt := now }] := by
  have hna : ¬ a ≤ 0 := not_le.mpr ha
  obtain ⟨r, hu, hle⟩ : ∃ r, db.tokens u = some r ∧ a ≤ r.balance := by
    unfold balanceOf at hbal
    rcases hu : db.tokens u with _ | r
    · simp only [hu] at hbal
      exact absurd ha (not_lt.mpr hbal)
    · simp only [hu] at hbal
      exact ⟨r, rfl, hbal⟩
  have hT : TransferTokens db u v a now none =
      ((insertTransaction
            (upsertCredit
              { db with
                tokens := Function.update db.tokens u (some { r with balance := r.balance - a }) }
              v a now)
            u "TRANSFER" a 0 (some u) (some v) "Token transfer" now).1,
       GetTransaction (insertTransaction
            (upsertCredit
              { db with
                tokens := Function.update db.tokens u (some { r with balance := r.balance - a }) }
              v a now)
            u "TRANSFER" a 0 (some u) (some v) "Token transfer" now).1
          (insertTransaction
            (upsertCredit
              { db with
                tokens := Function.update db.tokens u (some { r with balance := r.balance - a }) }
              v a now)
            u "TRANSFER" a 0 (some u) (some v) "Token transfer" now).2 false) := by
    simp [TransferTokens, hna, TransferTokensTx_none v now hu hle, storageFails]
  rw [hT]
  refine ⟨?_, ?_, ?_, ?_, ?_⟩
  · exact GetTransaction_insertTransaction_ok _ _ _ _ _ _ _ _ _
  · show balanceOf (upsertCredit _ v a now) u = _
    rw [balanceOf_upsertCredit, if_neg (Ne.symm huv)]
    simp [balanceOf, hu]
  · show balanceOf (upsertCredit _ v a now) v = _
    rw [balanceOf_upsertCredit, if_pos rfl]
    simp [balanceOf, Function.update_apply, huv]
  · intro hv
    simp [insertTransaction, upsertCredit, Function.update_apply, huv, hv]
  · simp only [insertTransaction]
    rcases hv : db.tokens v with _ | rv <;>
      simp [upsertCredit, Function.update_apply, huv, hv]

theorem transfer_effect_witness :
    balanceOf (TransferTokens sampleDB 1 2 40 0 none).1 1 = 60 ∧
    balanceOf (TransferTokens sampleDB 1 2 40 0 none).1 2 = 40 ∧
    (TransferTokens sampleDB 1 2 40 0 none).1.txns =
      [{ id := 1, userID := 1, type := "TRANSFER", amount := 40,
         pointsConverted := 0, fromUserID := some 1, toUserID := some 2,
         description := "Token transfer", createdAt := 0, updatedAt := 0 }] :=
  have h := transfer_effect sampleDB 1 2 40 0 (by norm_num)
    (by norm_num [balanceOf, sampleDB]) (by decide)
  ⟨h.2.1.trans (by norm_num [balanceOf, sampleDB]),
   h.2.2.1.trans (by norm_num [balanceOf, sampleDB]), h.2.2.2.2⟩

theorem GetTransaction_error (db : DB) (id : Int) (b : Bool) (e : Err)
    (h : GetTransaction db id b = .error e) : e = .ErrStorage ∨ e = .ErrNoRows := by
  unfold GetTransaction at h
  split_ifs at h
  · simp only [Except.error.injEq] at h
    exact Or.inl h.symm
  · split at h
    · simp only [Except.error.injEq] at h
      exact Or.inr h.symm
    · simp at h

/-- C4. Transfer failure conditions: TransferTokens fails with ErrInvalidAmount when
amount <= 0; for amount > 0 (storage not failing) it fails with ErrInsufficientBalance
exactly when the sender balance (0 for an absent record) is below amount; and whenever the
call returns one of these two errors the database (every account row and every transaction
row) is unchanged. -/
theorem transfer_failure (db : DB) (u v : Int) (a : ℚ) (now : Time) :
    (a ≤ 0 → ∀ f, (TransferTokens db u v a now f).2 = .error .ErrInvalidAmount) ∧
    (0 < a → ((TransferTokens db u v a now none).2 = .error .ErrInsufficientBalance ↔
                balanceOf db u < a)) ∧
    (∀ f, ((TransferTokens db u v a now f).2 = .error .ErrInvalidAmount ∨
           (TransferTokens db u v a now f).2 = .error .ErrInsufficientBalance) →
          (TransferTokens db u v a now f).1 = db) := by
  refine ⟨?_, ?_, ?_⟩
  · intro ha f
    simp [TransferTokens, ha]
  · intro ha
    have hna : ¬ a ≤ 0 := not_le.mpr ha
    rcases hu : db.tokens u with _ | r
    · simp [TransferTokens, TransferTokensTx, storageFails, hna, hu, balanceOf, ha]
    · by_cases hle : a ≤ r.balance
      · have hT := TransferTokensTx_none v now hu hle
        simp only [TransferTokens, hna, if_false, hT, balanceOf, hu]
        constructor
        · intro h
          exact absurd h (GetTransaction_ne_ErrInsufficientBalance _ _ _)
        · intro h
          exact absurd hle (not_le.mpr h)
      · simp [TransferTokens, TransferTokensTx, storageFails, hna, hu, balanceOf, hle,
          not_le.mp hle]
  · intro f h
    unfold TransferTokens at h ⊢
    split_ifs at h ⊢ with ha
    · rfl
    · cases hr : TransferTokensTx db u v a now f with
      | error e => rfl
      | ok x =>
        obtain ⟨db2, id⟩ := x
        simp only [hr] at h
        rcases h with h | h
        · rcases GetTransaction_error _ _ _ _ h with h1 | h1 <;> cases h1
        · rcases GetTransaction_error _ _ _ _ h with h1 | h1 <;> cases h1

theorem ConvertPointsToTokens_tokens (db : DB) (u pts : Int) (now : Time) (f : Option Nat) :
    (ConvertPointsToTokens db u pts now f).1.tokens = db.tokens := by
  unfold ConvertPointsToTokens
  cases hr : ConvertPointsToTokensTx db u pts now f with
  | error e => rfl
  | ok x =>
    obtain ⟨db2, t⟩ := x
    obtain ⟨q, -, -, hdb, -⟩ := ConvertPointsToTokensTx_ok hr
    subst hdb
    rfl

/-- C5. Conversion does not credit the balance: in the first scenario of the specification
(200 points, balance 0) ConvertPointsToTokens of 100 points succeeds, returns an EARN
transaction of amount 10 and lowers the points to 100, but the token balance of the account
stays 0 instead of becoming 10. -/
theorem convert_leaves_balance :
    (ConvertPointsToTokens scenarioDB 1 100 0 none).2 =
      .ok { ID := 1, UserID := 1, Type_ := "EARN", Amount := 10, PointsConverted := 100,
            Description := "Points conversion", CreatedAt := 0, UpdatedAt := 0 } ∧
    (ConvertPointsToTokens scenarioDB 1 100 0 none).1.users 1 = some 100 ∧
    balanceOf scenarioDB 1 = 0 ∧
    balanceOf (ConvertPointsToTokens scenarioDB 1 100 0 none).1 1 = 0 ∧
    balanceOf (ConvertPointsToTokens scenarioDB 1 100 0 none).1 1 ≠ 0 + (100 : ℚ) * 0.1 := by
  refine ⟨?_, rfl, rfl, rfl, ?_⟩
  · simp [ConvertPointsToTokens, ConvertPointsToTokensTx, scenarioDB, storageFails,
      insertTransaction, tokenAmount_hundred]
  · have h : balanceOf (ConvertPointsToTokens scenarioDB 1 100 0 none).1 1 = 0 := rfl
    rw [h]
    norm_num

theorem ConvertPointsToTokensTx_none {db : DB} {u pts p : Int} (now : Time)
    (hp : db.users u = some p) (hle : pts ≤ p) :
    ConvertPointsToTokensTx db u pts now none =
      .ok ({ users := Function.update db.users u (some (p - pts)),
             tokens := db.tokens,
             txns := db.txns ++ [{ id := db.nextTxnID, userID := u, type := "EARN",
                                   amount := tokenAmount pts, pointsConverted := pts,
                                   fromUserID := none, toUserID := none,
                                   description := "Points conversion", createdAt := now,
                                   updatedAt := now }],
             nextTxnID := db.nextTxnID + 1,
             nextTokenID := db.nextTokenID },
           { ID := db.nextTxnID, UserID := u, Type_ := "EARN", Amount := tokenAmount pts,
             PointsConverted := pts, Description := "Points conversion",
             CreatedAt := now, UpdatedAt := now }) := by
  simp [ConvertPointsToTokensTx, storageFails, hp, not_lt.mpr hle, insertTransaction]

/-- C6, amended. Conversion debits points and records EARN, with the amount computed in
float64:
for an account whose points balance is at least points > 0, ConvertPointsToTokens (storage
not failing) succeeds and returns a transaction with that userID, type EARN,
pointsConverted = points, description "Points conversion" and amount tokenAmount points,
the float64 product float64(points) * 0.1 (conversion, constant and product each rounded
to the nearest float64); the points balance decreases by exactly points and the log gains
exactly one row, of type EARN with that amount and pointsConverted = points. -/
theorem convert_debits_points_records_earn (db : DB) (u pts p : Int) (now : Time)
    (hp : db.users u = some p) (_hpos : 0 < pts) (hle : pts ≤ p) :
    (ConvertPointsToTokens db u pts now none).2 =
      .ok { ID := db.nextTxnID, UserID := u, Type_ := "EARN", Amount := tokenAmount pts,
            PointsConverted := pts, Description := "Points conversion",
            CreatedAt := now, UpdatedAt := now } ∧
    (ConvertPointsToTokens db u pts now none).1.users u = some (p - pts) ∧
    (ConvertPointsToTokens db u pts now none).1.txns =
      db.txns ++ [{ id := db.nextTxnID, userID := u, type := "EARN",
                    amount := tokenAmount pts, pointsConverted := pts,
                    fromUserID := none, toUserID := none,
                    description := "Points conversion", createdAt := now,
                    updatedAt := now }] ∧
    tokenAmount pts = Float64.round (Float64.round (pts : ℚ) * Float64.round (1 / 10)) := by
  refine ⟨?_, ?_, ?_, ?_⟩
  · simp [ConvertPointsToTokens, ConvertPointsToTokensTx_none now hp hle]
  · simp [ConvertPointsToTokens, ConvertPointsToTokensTx_none now hp hle]
  · simp [ConvertPointsToTokens, ConvertPointsToTokensTx_none now hp hle]
  · unfold tokenAmount
    norm_num

theorem convert_debits_points_records_earn_witness :
    (ConvertPointsToTokens scenarioDB 1 100 0 none).1.users 1 = some 100 ∧
    (ConvertPointsToTokens scenarioDB 1 100 0 none).1.txns =
      [{ id := 1, userID := 1, type := "EARN", amount := 10, pointsConverted := 100,
         fromUserID := none, toUserID := none, description := "Points conversion",
         createdAt := 0, updatedAt := 0 }] :=
  have h := convert_debits_points_records_earn scenarioDB 1 100 200 0 rfl (by decide) (by decide)
  ⟨h.2.1, h.2.2.1.trans (by simp [scenarioDB, tokenAmount_hundred])⟩

/-- C6, counterexample. Converting 3 points (account with 200 points, storage not failing)
returns and logs the amount 1351079888211149 / 4503599627370496, the float64 printed as
0.30000000000000004: it is neither one tenth of 3 nor the float64 nearest to 3/10. -/
theorem convert_amount_not_one_tenth :
    (ConvertPointsToTokens scenarioDB 1 3 0 none).2 =
      .ok { ID := 1, UserID := 1, Type_ := "EARN",
            Amount := 1351079888211149 / 4503599627370496,
            PointsConverted := 3, Description := "Points conversion",
            CreatedAt := 0, UpdatedAt := 0 } ∧
    ((ConvertPointsToTokens scenarioDB 1 3 0 none).1.txns.map TxnRow.amount) =
      [1351079888211149 / 4503599627370496] ∧
    (1351079888211149 / 4503599627370496 : ℚ) ≠ 3 * 0.1 ∧
    (1351079888211149 / 4503599627370496 : ℚ) ≠ Float64.round (3 / 10) := by
  refine ⟨?_, ?_, by norm_num, ?_⟩
  · simp [ConvertPointsToTokens, ConvertPointsToTokensTx, scenarioDB, storageFails,
      insertTransaction, tokenAmount_three]
  · simp [ConvertPointsToTokens, ConvertPointsToTokensTx, scenarioDB, storageFails,
      insertTransaction, tokenAmount_three]
  · rw [Float64.round_three_tenths]
    norm_num

/-- C7. Insufficient points: for an existing account and points greater than its points
balance, ConvertPointsToTokens (storage not failing) fails with ErrInsufficientPoints and
the database (points balances, token balances, transaction log) is unchanged. -/
theorem convert_insufficient_points (db : DB) (u pts p : Int) (now : Time)
    (hp : db.users u = some p) (hlt : p < pts) :
    ConvertPointsToTokens db u pts now none = (db, .error .ErrInsufficientPoints) := by
  simp [ConvertPointsToTokens, ConvertPointsToTokensTx, storageFails, hp, hlt]

theorem convert_insufficient_points_witness :
    ConvertPointsToTokens sampleDB 2 100 0 none = (sampleDB, .error .ErrInsufficientPoints) :=
  convert_insufficient_points sampleDB 2 100 50 0 rfl (by decide)

/-- C8. Positive points required, on the code: called with points = -5 for a user with
200 points, ConvertPointsToTokens does not fail: it returns an EARN transaction of amount
-1/2, raises the points balance to 205 and appends a row to the log. -/
theorem convert_negative_points_succeeds :
    (ConvertPointsToTokens scenarioDB 1 (-5) 0 none).2 =
      .ok { ID := 1, UserID := 1, Type_ := "EARN", Amount := -(1 / 2), PointsConverted := -5,
            Description := "Points conversion", CreatedAt := 0, UpdatedAt := 0 } ∧
    (ConvertPointsToTokens scenarioDB 1 (-5) 0 none).1.users 1 = some 205 ∧
    (ConvertPointsToTokens scenarioDB 1 (-5) 0 none).1.txns.length = 1 ∧
    scenarioDB.txns.length = 0 := by
  refine ⟨?_, rfl, rfl, rfl⟩
  simp [ConvertPointsToTokens, ConvertPointsToTokensTx, scenarioDB, storageFails,
    insertTransaction, tokenAmount_minus_five]

/-- For every account with a non-negative points balance and every points <= 0,
ConvertPointsToTokens (storage not failing) returns a transaction, changes the points
balance to p - points and appends one row to the log: the function has no check that
points is positive. -/
theorem convert_nonpositive_points_succeeds (db : DB) (u pts p : Int) (now : Time)
    (hp : db.users u = some p) (hpts : pts ≤ 0) (h0 : 0 ≤ p) :
    (∃ t, (ConvertPointsToTokens db u pts now none).2 = .ok t) ∧
    (ConvertPointsToTokens db u pts now none).1.users u = some (p - pts) ∧
    (ConvertPointsToTokens db u pts now none).1.txns.length = db.txns.length + 1 := by
  have hle : pts ≤ p := le_trans hpts h0
  refine ⟨?_, ?_, ?_⟩ <;>
    simp [ConvertPointsToTokens, ConvertPointsToTokensTx_none now hp hle]

/-- The request binding of the convertPoints handler rejects a request with points <= 0
with status 400 before ConvertPointsToTokens is called, whatever the storage does, and
the database (points balances, token balances, transaction log) is unchanged. -/
theorem convertPoints_rejects_nonpositive (db : DB) (u pts : Int) (now : Time)
    (f : Option Nat) (h : pts ≤ 0) : convertPoints db u pts now f = (db, 400) := by
  have hv : ConvertRequest.valid pts = false := by
    simp only [ConvertRequest.valid, Bool.and_eq_false_iff, decide_eq_false_iff_not]
    right
    omega
  simp [convertPoints, hv]

theorem convertPoints_rejects_nonpositive_witness :
    convertPoints scenarioDB 1 (-5) 0 none = (scenarioDB, 400) :=
  convertPoints_rejects_nonpositive scenarioDB 1 (-5) 0 none (by decide)

theorem StakeTokensTx_none {db : DB} {u : Int} {r : TokenRow} {a : ℚ} (d : Int) (now : Time)
    (hu : db.tokens u = some r) (hs : r.stakedAmount ≤ 0) (hle : a ≤ r.balance) :
    StakeTokensTx db u a d now none =
      .ok (insertTransaction
            { db with
              tokens := Function.update db.tokens u
                (some { r with balance := r.balance - a, stakedAmount := a,
                               lastStakeDate := some now, stakeDurationDays := some d,
                               stakeEndDate := some (AddDate now d) }) }
            u "STAKE" a 0 none none "Token staking" now) := by
  simp [StakeTokensTx, storageFails, hu, hs, hle]

/-- C9. Stake preconditions: in a state where the staked amount of the account is
non-negative (as the data model requires), StakeTokens (storage not failing) succeeds if and
only if amount > 0, durationDays >= 30, the staked amount of the account is 0 and its
balance is at least amount (an absent record counting as Idle with balance 0); when it
fails, the error is that of the first violated precondition in the order
ErrInvalidAmount, ErrInvalidStakePeriod, ErrAlreadyStaked, ErrInsufficientBalance. -/
theorem stake_preconditions (db : DB) (u : Int) (a : ℚ) (d : Int) (now : Time)
    (hwf : 0 ≤ stakedOf db u) :
    ((∃ t, (StakeTokens db u a d now none).2 = .ok t) ↔
      (0 < a ∧ 30 ≤ d ∧ stakedOf db u = 0 ∧ a ≤ balanceOf db u)) ∧
    (a ≤ 0 → (StakeTokens db u a d now none).2 = .error .ErrInvalidAmount) ∧
    (0 < a → d < 30 → (StakeTokens db u a d now none).2 = .error .ErrInvalidStakePeriod) ∧
    (0 < a → 30 ≤ d → stakedOf db u ≠ 0 →
      (StakeTokens db u a d now none).2 = .error .ErrAlreadyStaked) ∧
    (0 < a → 30 ≤ d → stakedOf db u = 0 → balanceOf db u < a →
      (StakeTokens db u a d now none).2 = .error .ErrInsufficientBalance) := by
  have p1 : a ≤ 0 → (StakeTokens db u a d now none).2 = .error .ErrInvalidAmount := by
    intro ha
    simp [StakeTokens, ha]
  have p2 : 0 < a → d < 30 →
      (StakeTokens db u a d now none).2 = .error .ErrInvalidStakePeriod := by
    intro ha hd
    simp [StakeTokens, not_le.mpr ha, hd]
  have p3 : 0 < a → 30 ≤ d → stakedOf db u ≠ 0 →
      (StakeTokens db u a d now none).2 = .error .ErrAlreadyStaked := by
    intro ha hd hs
    have hpos : 0 < stakedOf db u := lt_of_le_of_ne hwf (Ne.symm hs)
    unfold stakedOf at hpos
    rcases hu : db.tokens u with _ | r
    · simp [hu] at hpos
    · simp only [hu] at hpos
      simp [StakeTokens, StakeTokensTx, storageFails, not_le.mpr ha, not_lt.mpr hd, hu, hpos]
  have p4 : 0 < a → 30 ≤ d → stakedOf db u = 0 → balanceOf db u < a →
      (StakeTokens db u a d now none).2 = .error .ErrInsufficientBalance := by
    intro ha hd hs hb
    unfold stakedOf at hs
    unfold balanceOf at hb
    rcases hu : db.tokens u with _ | r
    · simp [StakeTokens, StakeTokensTx, storageFails, not_le.mpr ha, not_lt.mpr hd, hu]
    · simp only [hu] at hs hb
      simp [StakeTokens, StakeTokensTx, storageFails, not_le.mpr ha, not_lt.mpr hd, hu, hs,
        not_le.mpr hb]
  refine ⟨⟨?_, ?_⟩, p1, p2, p3, p4⟩
  · rintro ⟨t, ht⟩
    by_contra hcon
    rcases le_or_lt a 0 with ha | ha
    · rw [p1 ha] at ht; cases ht
    rcases lt_or_le d 30 with hd | hd
    · rw [p2 ha hd] at ht; cases ht
    by_cases hs : stakedOf db u = 0
    · rcases lt_or_le (balanceOf db u) a with hb | hb
      · rw [p4 ha hd hs hb] at ht; cases ht
      · exact hcon ⟨ha, hd, hs, hb⟩
    · rw [p3 ha hd hs] at ht; cases ht
  · rintro ⟨ha, hd, hs, hb⟩
    unfold stakedOf at hs
    unfold balanceOf at hb
    rcases hu : db.tokens u with _ | r
    · simp only [hu] at hb
      exact absurd ha (not_lt.mpr hb)
    · simp only [hu] at hs hb
      have hT := StakeTokensTx_none d now hu (le_of_eq hs) hb
      simp only [StakeTokens, not_le.mpr ha, not_lt.mpr hd, if_false, hT, storageFails]
      exact GetTransaction_insertTransaction_ok _ _ _ _ _ _ _ _ _

theorem stake_preconditions_witness :
    0 ≤ stakedOf sampleDB 1 ∧
    ((∃ t, (StakeTokens sampleDB 1 50 30 0 none).2 = .ok t) ↔
      ((0 : ℚ) < 50 ∧ (30 : Int) ≤ 30 ∧ stakedOf sampleDB 1 = 0 ∧ 50 ≤ balanceOf sampleDB 1)) :=
  ⟨le_of_eq rfl, (stake_preconditions sampleDB 1 50 30 0 (le_of_eq rfl)).1⟩

/-- C10. Stake effect: after a successful StakeTokens(account, amount, durationDays)
executed at time now, the balance of the account is its previous balance minus amount, its
staked amount is amount, its stake start date is now, its stake duration is durationDays,
its stake end date is now + durationDays days, and the log has gained exactly one row, of
type STAKE for that account with amount as amount; hence, the staked amount before the call
being non-negative as the data model requires, balance + stakedAmount is unchanged. -/
theorem stake_effect (db : DB) (u : Int) (a : ℚ) (d : Int) (now : Time) (f : Option Nat)
    (t : Transaction) (h : (StakeTokens db u a d now f).2 = .ok t) :
    balanceOf (StakeTokens db u a d now f).1 u = balanceOf db u - a ∧
    stakedOf (StakeTokens db u a d now f).1 u = a ∧
    ((StakeTokens db u a d now f).1.tokens u).bind TokenRow.lastStakeDate = some now ∧
    ((StakeTokens db u a d now f).1.tokens u).bind TokenRow.stakeDurationDays = some d ∧
    ((StakeTokens db u a d now f).1.tokens u).bind TokenRow.stakeEndDate
      = some (now + 86400 * d) ∧
    (StakeTokens db u a d now f).1.txns =
      db.txns ++ [{ id := db.nextTxnID, userID := u, type := "STAKE", amount := a,
                    pointsConverted := 0, fromUserID := none, toUserID := none,
                    description := "Token staking", createdAt := now, updatedAt := now }] ∧
    (0 ≤ stakedOf db u →
      balanceOf (StakeTokens db u a d now f).1 u + stakedOf (StakeTokens db u a d now f).1 u
        = balanceOf db u + stakedOf db u) := by
  unfold StakeTokens at h ⊢
  split_ifs at h ⊢ with ha hd
  cases hr : StakeTokensTx db u a d now f with
  | error e => simp [hr] at h
  | ok x =>
    obtain ⟨db2, id⟩ := x
    obtain ⟨r, hu, hs, hle, hdb, -⟩ := StakeTokensTx_ok hr
    subst hdb
    refine ⟨?_, ?_, ?_, ?_, ?_, ?_, ?_⟩
    · simp [balanceOf, hu]
    · simp [stakedOf]
    · simp
    · simp
    · simp [AddDate]
    · rfl
    · intro hwf
      have h0 : 0 ≤ r.stakedAmount := by simpa [stakedOf, hu] using hwf
      have hs0 : r.stakedAmount = 0 := le_antisymm hs h0
      simp [balanceOf, stakedOf, hu, hs0]

theorem stake_effect_witness :
    balanceOf (StakeTokens sampleDB 1 50 30 1000 none).1 1 = 50 ∧
    stakedOf (StakeTokens sampleDB 1 50 30 1000 none).1 1 = 50 ∧
    ((StakeTokens sampleDB 1 50 30 1000 none).1.tokens 1).bind TokenRow.stakeEndDate
      = some 2593000 ∧
    balanceOf (StakeTokens sampleDB 1 50 30 1000 none).1 1 +
      stakedOf (StakeTokens sampleDB 1 50 30 1000 none).1 1 = 100 :=
  have h := stake_effect sampleDB 1 50 30 1000 none
    { ID := 1, UserID := 1, Type_ := "STAKE", Amount := 50, PointsConverted := 0,
      Description := "Token staking", CreatedAt := 1000, UpdatedAt := 1000 } rfl
  ⟨h.1.trans (by norm_num [balanceOf, sampleDB]), h.2.1, h.2.2.2.2.1,
   (h.2.2.2.2.2.2 (le_of_eq rfl)).trans (by norm_num [balanceOf, stakedOf, sampleDB])⟩

/-! ## Single active stake -/

theorem stakedOf_upsertCredit (db : DB) (v w : Int) (a : ℚ) (now : Time) :
    stakedOf (upsertCredit db v a now) w = stakedOf db w := by
  unfold upsertCredit stakedOf
  rcases hv : db.tokens v with _ | r <;> by_cases hwv : w = v
  · subst hwv; simp [hv]
  · simp [hwv, Function.update_apply]
  · subst hwv; simp [hv]
  · simp [hwv, Function.update_apply]

theorem stakedOf_TransferTokens (db : DB) (x y w : Int) (a : ℚ) (now : Time) (f : Option Nat) :
    stakedOf (TransferTokens db x y a now f).1 w = stakedOf db w := by
  unfold TransferTokens
  split_ifs with ha
  · rfl
  · cases hr : TransferTokensTx db x y a now f with
    | error e => rfl
    | ok p =>
      obtain ⟨db2, id⟩ := p
      obtain ⟨r, hx, -, hdb, -⟩ := TransferTokensTx_ok hr
      subst hdb
      show stakedOf (upsertCredit _ y a now) w = _
      rw [stakedOf_upsertCredit]
      unfold stakedOf
      by_cases hwx : w = x
      · subst hwx; simp [hx]
      · simp [Function.update_apply, hwx]

theorem StakeTokens_tokens_other (db : DB) (w u : Int) (a : ℚ) (d : Int) (now : Time)
    (f : Option Nat) (huw : u ≠ w) :
    (StakeTokens db w a d now f).1.tokens u = db.tokens u := by
  unfold StakeTokens
  split_ifs with ha hd
  · rfl
  · rfl
  · cases hr : StakeTokensTx db w a d now f with
    | error e => rfl
    | ok p =>
      obtain ⟨db2, id⟩ := p
      obtain ⟨r, -, -, -, hdb, -⟩ := StakeTokensTx_ok hr
      subst hdb
      simp [Function.update_apply, huw]

theorem UnstakeTokens_tokens_other (db : DB) (w u : Int) (now : Time) (f : Option Nat)
    (huw : u ≠ w) : (UnstakeTokens db w now f).1.tokens u = db.tokens u := by
  unfold UnstakeTokens
  cases hr : UnstakeTokensTx db w now f with
  | error e => rfl
  | ok p =>
    obtain ⟨db2, id⟩ := p
    obtain ⟨r, e, -, -, -, -, hdb, -⟩ := UnstakeTokensTx_ok hr
    subst hdb
    simp [Function.update_apply, huw]

theorem StakeTokens_of_staked (db : DB) (u : Int) (a : ℚ) (d : Int) (now : Time)
    (f : Option Nat) (hs : 0 < stakedOf db u) : (StakeTokens db u a d now f).1 = db := by
  unfold StakeTokens
  split_ifs with ha hd
  · rfl
  · rfl
  · cases hr : StakeTokensTx db u a d now f with
    | error e => rfl
    | ok p =>
      obtain ⟨db2, id⟩ := p
      obtain ⟨r, hu, hle, -, -, -⟩ := StakeTokensTx_ok hr
      simp only [stakedOf, hu] at hs
      exact absurd hs (not_lt.mpr hle)

theorem stakedOf_applyCall (db : DB) (u : Int) (c : Call) (hs : 0 < stakedOf db u)
    (hc : commitsUnstake db u c = false) : stakedOf (applyCall db c) u = stakedOf db u := by
  cases c with
  | convert w p now f =>
    simp only [applyCall, stakedOf, ConvertPointsToTokens_tokens]
  | stake w a d now f =>
    by_cases huw : u = w
    · subst huw
      simp only [applyCall, StakeTokens_of_staked db u a d now f hs]
    · simp only [applyCall, stakedOf, StakeTokens_tokens_other db w u a d now f huw]
  | unstake w now f =>
    by_cases huw : u = w
    · subst huw
      simp only [commitsUnstake, decide_True, Bool.true_and] at hc
      simp only [applyCall, UnstakeTokens]
      cases hr : UnstakeTokensTx db u now f with
      | error e => rfl
      | ok p => simp [hr] at hc
    · simp only [applyCall, stakedOf, UnstakeTokens_tokens_other db w u now f huw]
  | transfer x y a now f =>
    simp only [applyCall, stakedOf_TransferTokens]

theorem stakedOf_runCalls (u : Int) (cs : List Call) :
    ∀ (db : DB), 0 < stakedOf db u → noUnstakeCommit u db cs = true →
      stakedOf (runCalls db cs) u = stakedOf db u := by
  induction cs with
  | nil => intro db _ _; rfl
  | cons c cs ih =>
    intro db hs hcs
    simp only [noUnstakeCommit, Bool.and_eq_true, Bool.not_eq_true'] at hcs
    have h1 := stakedOf_applyCall db u c hs hcs.1
    have h2 := ih (applyCall db c) (by rw [h1]; exact hs) hcs.2
    simp only [runCalls, List.foldl_cons] at h2 ⊢
    rw [h2, h1]

theorem StakeTokens_already_staked (db : DB) (u : Int) (a : ℚ) (d : Int) (now : Time)
    (hs : 0 < stakedOf db u) (ha : 0 < a) (hd : 30 ≤ d) :
    StakeTokens db u a d now none = (db, .error .ErrAlreadyStaked) := by
  unfold stakedOf at hs
  rcases hu : db.tokens u with _ | r
  · simp [hu] at hs
  · simp only [hu] at hs
    simp [StakeTokens, StakeTokensTx, storageFails, not_le.mpr ha, not_lt.mpr hd, hu, hs]

/-- Single active stake up to a commit: after a successful StakeTokens on an account,
whatever calls of ConvertPointsToTokens, StakeTokens, UnstakeTokens and TransferTokens
follow (arbitrary arguments and storage faults, succeeding or failing) as long as no
UnstakeTokens on that account commits, a later StakeTokens on the same account with
amount > 0 and durationDays >= 30 fails with ErrAlreadyStaked and changes nothing; the
account keeps the staked amount of the first stake. -/
theorem single_active_stake (db : DB) (u : Int) (a : ℚ) (d : Int) (now : Time)
    (f : Option Nat) (t : Transaction) (cs : List Call) (a2 : ℚ) (d2 : Int) (now2 : Time)
    (h : (StakeTokens db u a d now f).2 = .ok t)
    (hcs : noUnstakeCommit u (StakeTokens db u a d now f).1 cs = true)
    (ha2 : 0 < a2) (hd2 : 30 ≤ d2) :
    StakeTokens (runCalls (StakeTokens db u a d now f).1 cs) u a2 d2 now2 none
      = (runCalls (StakeTokens db u a d now f).1 cs, .error .ErrAlreadyStaked) ∧
    stakedOf (runCalls (StakeTokens db u a d now f).1 cs) u = a ∧ 0 < a := by
  have hpos : 0 < a := by
    unfold StakeTokens at h
    split_ifs at h with ha hd
    exact not_le.mp ha
  have hst : stakedOf (StakeTokens db u a d now f).1 u = a := by
    unfold StakeTokens at h ⊢
    split_ifs at h ⊢ with ha hd
    cases hr : StakeTokensTx db u a d now f with
    | error e => simp [hr] at h
    | ok p =>
      obtain ⟨db2, id⟩ := p
      obtain ⟨r, -, -, -, hdb, -⟩ := StakeTokensTx_ok hr
      subst hdb
      simp [stakedOf]
  have hrun := stakedOf_runCalls u cs _ (by rw [hst]; exact hpos) hcs
  rw [hst] at hrun
  exact ⟨StakeTokens_already_staked _ u a2 d2 now2 (by rw [hrun]; exact hpos) ha2 hd2,
    hrun, hpos⟩

theorem single_active_stake_witness :
    StakeTokens (runCalls (StakeTokens sampleDB 1 50 30 0 none).1
        [.convert 1 100 10 none, .transfer 1 2 10 20 none, .unstake 1 100 none,
         .stake 1 10 30 30 none, .transfer 2 1 5 40 (some 3)]) 1 10 30 50 none
      = (runCalls (StakeTokens sampleDB 1 50 30 0 none).1
        [.convert 1 100 10 none, .transfer 1 2 10 20 none, .unstake 1 100 none,
         .stake 1 10 30 30 none, .transfer 2 1 5 40 (some 3)], .error .ErrAlreadyStaked) :=
  (single_active_stake sampleDB 1 50 30 0 none
    { ID := 1, UserID := 1, Type_ := "STAKE", Amount := 50, PointsConverted := 0,
      Description := "Token staking", CreatedAt := 0, UpdatedAt := 0 }
    [.convert 1 100 10 none, .transfer 1 2 10 20 none, .unstake 1 100 none,
     .stake 1 10 30 30 none, .transfer 2 1 5 40 (some 3)] 10 30 50
    rfl (by with_unfolding_all rfl) (by norm_num) (by decide)).1

/-- C11. Single active stake, on the code: after the successful StakeTokens of 50 for
30 days on user 1, an UnstakeTokens on day 30 whose read-back after Commit fails returns an
error, so no UnstakeTokens has succeeded; yet the stake is released (staked amount 0), and
the next StakeTokens with amount 10 > 0 and durationDays 30 returns a transaction instead
of failing with ErrAlreadyStaked. -/
theorem stake_released_by_failed_unstake :
    stakedDB = (StakeTokens sampleDB 1 50 30 0 none).1 ∧
    (StakeTokens sampleDB 1 50 30 0 none).2 =
      .ok { ID := 1, UserID := 1, Type_ := "STAKE", Amount := 50, PointsConverted := 0,
            Description := "Token staking", CreatedAt := 0, UpdatedAt := 0 } ∧
    (UnstakeTokens stakedDB 1 2592000 (some 5)).2 = .error .ErrStorage ∧
    noUnstakeCommit 1 stakedDB [.unstake 1 2592000 (some 5)] = false ∧
    stakedOf (UnstakeTokens stakedDB 1 2592000 (some 5)).1 1 = 0 ∧
    (StakeTokens (UnstakeTokens stakedDB 1 2592000 (some 5)).1 1 10 30 2592000 none).2 =
      .ok { ID := 3, UserID := 1, Type_ := "STAKE", Amount := 10, PointsConverted := 0,
            Description := "Token staking", CreatedAt := 2592000, UpdatedAt := 2592000 } ∧
    (StakeTokens (UnstakeTokens stakedDB 1 2592000 (some 5)).1 1 10 30 2592000 none).2 ≠
      .error .ErrAlreadyStaked := by
  have hok : (StakeTokens (UnstakeTokens stakedDB 1 2592000 (some 5)).1 1 10 30 2592000
      none).2 =
      .ok { ID := 3, UserID := 1, Type_ := "STAKE", Amount := 10, PointsConverted := 0,
            Description := "Token staking", CreatedAt := 2592000, UpdatedAt := 2592000 } := by
    with_unfolding_all rfl
  refine ⟨rfl, by with_unfolding_all rfl, by with_unfolding_all rfl,
    by with_unfolding_all rfl, by with_unfolding_all rfl, hok, ?_⟩
  rw [hok]
  exact fun h => Except.noConfusion h

/-! ## Unstaking -/

theorem UnstakeTokensTx_none {db : DB} {u : Int} {r : TokenRow} {e : Time} (now : Time)
    (hu : db.tokens u = some r) (he : r.stakeEndDate = some e) (hs : r.stakedAmount ≠ 0)
    (hle : e ≤ now) :
    UnstakeTokensTx db u now none =
      .ok (insertTransaction
            { db with
              tokens := Function.update db.tokens u
                (some { r with balance := r.balance + Float64.round r.stakedAmount +
                                 reward (Float64.round r.stakedAmount),
                               stakedAmount := 0, lastStakeDate := none,
                               stakeDurationDays := none, stakeEndDate := none }) }
            u "UNSTAKE"
            (Float64.round (Float64.round r.stakedAmount +
              reward (Float64.round r.stakedAmount))) 0 none none
            "Token unstaking with reward" now) := by
  simp [UnstakeTokensTx, storageFails, hu, he, hs, not_lt.mpr hle]

/-- C12. Lock enforcement: for an account with stakedAmount > 0 and stake end date e,
UnstakeTokens called at time now (storage not failing) fails with ErrStakePeriodActive and
leaves the database unchanged when now is strictly before e, and succeeds when now is equal
to or after e. -/
theorem lock_enforcement (db : DB) (u : Int) (now : Time) (r : TokenRow) (e : Time)
    (hu : db.tokens u = some r) (hs : 0 < r.stakedAmount) (he : r.stakeEndDate = some e) :
    (now < e → UnstakeTokens db u now none = (db, .error .ErrStakePeriodActive)) ∧
    (e ≤ now → ∃ t, (UnstakeTokens db u now none).2 = .ok t) := by
  have hne : r.stakedAmount ≠ 0 := ne_of_gt hs
  constructor
  · intro hlt
    simp [UnstakeTokens, UnstakeTokensTx, storageFails, hu, he, hne, hlt]
  · intro hle
    simp only [UnstakeTokens, UnstakeTokensTx_none now hu he hne hle, storageFails]
    exact GetTransaction_insertTransaction_ok _ _ _ _ _ _ _ _ _

theorem lock_enforcement_witness :
    UnstakeTokens stakedDB 1 2591999 none = (stakedDB, .error .ErrStakePeriodActive) ∧
    ∃ t, (UnstakeTokens stakedDB 1 2592000 none).2 = .ok t :=
  have h := fun now => lock_enforcement stakedDB 1 now
    { id := 1, balance := 50, stakedAmount := 50, lastStakeDate := some 0,
      stakeDurationDays := some 30, stakeEndDate := some 2592000, createdAt := 0,
      updatedAt := 0 } 2592000 (by with_unfolding_all rfl) (by norm_num) rfl
  ⟨(h 2591999).1 (by decide), (h 2592000).2 (by decide)⟩

theorem UnstakeTokens_absent (db : DB) (u : Int) (now : Time) (hu : db.tokens u = none) :
    UnstakeTokens db u now none = (db, .error .ErrNoRows) := by
  simp [UnstakeTokens, UnstakeTokensTx, storageFails, hu]

theorem UnstakeTokens_null_end_date (db : DB) (u : Int) (now : Time) (r : TokenRow)
    (hu : db.tokens u = some r) (he : r.stakeEndDate = none) :
    UnstakeTokens db u now none = (db, .error .ErrScan) := by
  simp [UnstakeTokens, UnstakeTokensTx, storageFails, hu, he]

/-- In a state satisfying the stake-field invariant, `UnstakeTokens` on an account whose
staked amount is 0 never returns `ErrNoStakedTokens`: it returns `sql.ErrNoRows` for an
absent record and the scan error for a stored record, and leaves the database unchanged. -/
theorem UnstakeTokens_idle (db : DB) (u : Int) (now : Time) (hinv : StakeInv db)
    (hs : stakedOf db u = 0) :
    (UnstakeTokens db u now none = (db, .error .ErrNoRows) ∧ db.tokens u = none) ∨
    (UnstakeTokens db u now none = (db, .error .ErrScan) ∧ (db.tokens u).isSome = true) := by
  rcases hu : db.tokens u with _ | r
  · exact Or.inl ⟨UnstakeTokens_absent db u now hu, rfl⟩
  · refine Or.inr ⟨UnstakeTokens_null_end_date db u now r hu ?_, rfl⟩
    have h0 : r.stakedAmount = 0 := by simpa [stakedOf, hu] using hs
    have hiff := (hinv u r hu).1
    rcases he : r.stakeEndDate with _ | e
    · rfl
    · rw [he, h0] at hiff
      simp at hiff

/-- C13. Unstake without a stake, on the code: for the Idle record left by a stake and an
unstake (staked amount 0, stake end date NULL) UnstakeTokens returns the scan error of the
NULL stake_end_date, and for an account with no record it returns sql.ErrNoRows; in both
cases the error is not ErrNoStakedTokens, and the database is unchanged. -/
theorem unstake_without_stake_errors :
    stakedOf unstakedDB 1 = 0 ∧
    (∃ r, unstakedDB.tokens 1 = some r ∧ r.stakeEndDate = none) ∧
    UnstakeTokens unstakedDB 1 2600000 none = (unstakedDB, .error .ErrScan) ∧
    sampleDB.tokens 2 = none ∧
    UnstakeTokens sampleDB 2 0 none = (sampleDB, .error .ErrNoRows) := by
  have hrow : unstakedDB.tokens 1 =
      some { id := 1, balance := 50 + 50 + 50 * 0.05, stakedAmount := 0,
             lastStakeDate := none, stakeDurationDays := none, stakeEndDate := none,
             createdAt := 0, updatedAt := 0 } := by
    with_unfolding_all rfl
  refine ⟨?_, ⟨_, hrow, rfl⟩, ?_, rfl, ?_⟩
  · simp [stakedOf, hrow]
  · exact UnstakeTokens_null_end_date unstakedDB 1 2600000 _ hrow rfl
  · exact UnstakeTokens_absent sampleDB 2 0 rfl

theorem upsertCredit_txns (db : DB) (v : Int) (a : ℚ) (now : Time) :
    (upsertCredit db v a now).txns = db.txns := by
  unfold upsertCredit
  cases db.tokens v <;> rfl

theorem upsertCredit_nextTxnID (db : DB) (v : Int) (a : ℚ) (now : Time) :
    (upsertCredit db v a now).nextTxnID = db.nextTxnID := by
  unfold upsertCredit
  cases db.tokens v <;> rfl

theorem upsertCredit_users (db : DB) (v : Int) (a : ℚ) (now : Time) :
    (upsertCredit db v a now).users = db.users := by
  unfold upsertCredit
  cases db.tokens v <;> rfl

/-! ## Audit trail -/

theorem GetTransaction_mem_ok (db : DB) (id : Int) (h : ∃ r ∈ db.txns, r.id = id) :
    ∃ t, GetTransaction db id false = .ok t := by
  obtain ⟨r, hr, hid⟩ := h
  unfold GetTransaction
  rcases hfind : db.txns.find? (fun r => r.id == id) with _ | r2
  · rw [List.find?_eq_none] at hfind
    have := hfind r hr
    simp [hid] at this
  · simp [hfind]

theorem GetTransaction_error_not_mem {db : DB} {id : Int} {e : Err}
    (h : GetTransaction db id false = .error e) : ∀ r ∈ db.txns, r.id ≠ id := by
  intro r hr hid
  obtain ⟨t, ht⟩ := GetTransaction_mem_ok db id ⟨r, hr, hid⟩
  rw [ht] at h
  cases h

/-- Inside the atomic unit every operation is all-or-nothing: a call that returns an error
and whose injected fault is not the read-back `GetTransaction` after `Commit` (round
trip 5) leaves the database unchanged. -/
theorem error_before_commit_unchanged (db : DB) (c : Call) (e : Err)
    (hf : c.fault ≠ some 5) (h : callResult db c = .error e) : applyCall db c = db := by
  cases c with
  | convert u p now f =>
    simp only [callResult, applyCall, ConvertPointsToTokens] at h ⊢
    cases hr : ConvertPointsToTokensTx db u p now f with
    | error e2 => rfl
    | ok x => simp [hr] at h
  | stake u a d now f =>
    have hf5 : storageFails f 5 = false := by
      simpa [Call.fault, storageFails] using hf
    simp only [callResult, applyCall, StakeTokens] at h ⊢
    split_ifs at h ⊢ with ha hd
    · rfl
    · rfl
    · cases hr : StakeTokensTx db u a d now f with
      | error e2 => rfl
      | ok x =>
        obtain ⟨db2, id⟩ := x
        obtain ⟨r, -, -, -, hdb, hid⟩ := StakeTokensTx_ok hr
        subst hdb hid
        simp only [hr, hf5] at h
        exact absurd rfl (GetTransaction_error_not_mem h _
          (List.mem_append_right _ (List.mem_singleton_self _)))
  | unstake u now f =>
    have hf5 : storageFails f 5 = false := by
      simpa [Call.fault, storageFails] using hf
    simp only [callResult, applyCall, UnstakeTokens] at h ⊢
    cases hr : UnstakeTokensTx db u now f with
    | error e2 => rfl
    | ok x =>
      obtain ⟨db2, id⟩ := x
      obtain ⟨r, e3, -, -, -, -, hdb, hid⟩ := UnstakeTokensTx_ok hr
      subst hdb hid
      simp only [hr, hf5] at h
      exact absurd rfl (GetTransaction_error_not_mem h _
        (List.mem_append_right _ (List.mem_singleton_self _)))
  | transfer x y a now f =>
    have hf5 : storageFails f 5 = false := by
      simpa [Call.fault, storageFails] using hf
    simp only [callResult, applyCall, TransferTokens] at h ⊢
    split_ifs at h ⊢ with ha
    · rfl
    · cases hr : TransferTokensTx db x y a now f with
      | error e2 => rfl
      | ok p =>
        obtain ⟨db2, id⟩ := p
        obtain ⟨r, -, -, hdb, hid⟩ := TransferTokensTx_ok hr
        subst hdb hid
        simp only [hr, hf5] at h
        obtain ⟨t, ht⟩ := GetTransaction_insertTransaction_ok
          (upsertCredit
            { db with
              tokens := Function.update db.tokens x (some { r with balance := r.balance - a }) }
            y a now) x "TRANSFER" a 0 (some x) (some y) "Token transfer" now
        rw [show (insertTransaction
          (upsertCredit
            { db with
              tokens := Function.update db.tokens x (some { r with balance := r.balance - a }) }
            y a now) x "TRANSFER" a 0 (some x) (some y) "Token transfer" now).2
          = (upsertCredit
            { db with
              tokens := Function.update db.tokens x (some { r with balance := r.balance - a }) }
            y a now).nextTxnID from rfl] at ht
        rw [ht] at h
        cases h

/-- C17. Atomicity on failure, on the code: when storage fails on the read-back
GetTransaction that TransferTokens runs after Commit, the call returns an error although
the transfer is committed: the sender balance went from 100 to 60, the receiver got 40 and
the log gained a row. -/
theorem transfer_error_after_commit :
    (TransferTokens sampleDB 1 2 40 0 (some 5)).2 = .error .ErrStorage ∧
    balanceOf sampleDB 1 = 100 ∧
    balanceOf (TransferTokens sampleDB 1 2 40 0 (some 5)).1 1 = 60 ∧
    balanceOf (TransferTokens sampleDB 1 2 40 0 (some 5)).1 2 = 40 ∧
    sampleDB.txns.length = 0 ∧
    (TransferTokens sampleDB 1 2 40 0 (some 5)).1.txns.length = 1 := by
  refine ⟨?_, ?_, ?_, ?_, ?_, ?_⟩ <;> with_unfolding_all rfl

/-! ## Stake-field invariant -/

theorem StakeInv_update {db : DB} (h : StakeInv db) (u : Int) (row : TokenRow)
    (hrow : StakeFieldsOK row) (tokens : Int → Option TokenRow)
    (ht : tokens = Function.update db.tokens u (some row)) :
    ∀ w r, tokens w = some r → StakeFieldsOK r := by
  intro w r hw
  subst ht
  simp only [Function.update_apply] at hw
  split_ifs at hw with hwu
  · cases hw
    exact hrow
  · exact h w r hw

theorem StakeInv_upsertCredit {db : DB} (h : StakeInv db) (v : Int) (a : ℚ) (now : Time) :
    StakeInv (upsertCredit db v a now) := by
  unfold upsertCredit
  rcases hv : db.tokens v with _ | r
  · refine StakeInv_update h v
      { id := db.nextTokenID, balance := a, stakedAmount := 0, lastStakeDate := none,
        stakeDurationDays := none, stakeEndDate := none, createdAt := now, updatedAt := now }
      ?_ _ rfl
    exact ⟨by simp, by simp⟩
  · exact StakeInv_update h v { r with balance := r.balance + a } (h v r hv) _ rfl

theorem StakeInv_applyCall {db : DB} (h : StakeInv db) (c : Call) :
    StakeInv (applyCall db c) := by
  cases c with
  | convert u p now f =>
    intro w r hw
    simp only [applyCall, ConvertPointsToTokens_tokens] at hw
    exact h w r hw
  | stake u a d now f =>
    simp only [applyCall, StakeTokens]
    split_ifs with ha hd
    · exact h
    · exact h
    · cases hr : StakeTokensTx db u a d now f with
      | error e => exact h
      | ok x =>
        obtain ⟨db2, id⟩ := x
        obtain ⟨r, hu, -, -, hdb, -⟩ := StakeTokensTx_ok hr
        subst hdb
        refine StakeInv_update h u _ ?_ _ rfl
        refine ⟨by simpa using not_le.mp ha, ?_⟩
        intro e he
        simp only [Option.some.injEq] at he
        exact ⟨now, d, rfl, rfl, by rw [← he, AddDate]⟩
  | unstake u now f =>
    simp only [applyCall, UnstakeTokens]
    cases hr : UnstakeTokensTx db u now f with
    | error e => exact h
    | ok x =>
      obtain ⟨db2, id⟩ := x
      obtain ⟨r, e, hu, -, -, -, hdb, -⟩ := UnstakeTokensTx_ok hr
      subst hdb
      refine StakeInv_update h u _ ?_ _ rfl
      exact ⟨by simp, by simp⟩
  | transfer x y a now f =>
    simp only [applyCall, TransferTokens]
    split_ifs with ha
    · exact h
    · cases hr : TransferTokensTx db x y a now f with
      | error e => exact h
      | ok p =>
        obtain ⟨db2, id⟩ := p
        obtain ⟨r, hx, -, hdb, -⟩ := TransferTokensTx_ok hr
        subst hdb
        have h1 : StakeInv { db with
            tokens := Function.update db.tokens x (some { r with balance := r.balance - a }) } :=
          StakeInv_update h x { r with balance := r.balance - a } (h x r hx) _ rfl
        exact StakeInv_upsertCredit h1 y a now

theorem StakeInv_applyOp {db : DB} (h : StakeInv db) (op : Op) : StakeInv (applyOp db op) := by
  cases op with
  | call c => exact StakeInv_applyCall h c
  | getUserTokens u => exact h
  | getTransaction id => exact h
  | getUserTransactions u l o => exact h

/-- C18. Stake-field invariant: in every state reached from a state satisfying it by any
sequence of ledger operations (mutating calls with arbitrary arguments and storage faults,
and queries; a receiver record created by a transfer included), each account record has
stakedAmount > 0 if and only if its stake end date is set, and a set stake end date equals
the stake start date plus the stake duration in days. -/
theorem stake_fields_invariant (db : DB) (ops : List Op) (h : StakeInv db) :
    ∀ u r, (runOps db ops).tokens u = some r →
      (0 < r.stakedAmount ↔ r.stakeEndDate.isSome = true) ∧
      (∀ e, r.stakeEndDate = some e →
        ∃ s d, r.lastStakeDate = some s ∧ r.stakeDurationDays = some d ∧
          e = s + 86400 * d) := by
  have key : ∀ (ops : List Op) (db : DB), StakeInv db → StakeInv (runOps db ops) := by
    intro ops
    induction ops with
    | nil => intro db h; exact h
    | cons op ops ih => intro db h; exact ih _ (StakeInv_applyOp h op)
  exact key ops db h

theorem stake_fields_invariant_witness :
    StakeInv sampleDB ∧
    ∀ r, (runOps sampleDB
        [.call (.stake 1 50 30 0 none), .call (.transfer 1 2 10 5 none), .getUserTokens 1,
         .call (.unstake 1 2592000 none)]).tokens 2 = some r →
      (0 < r.stakedAmount ↔ r.stakeEndDate.isSome = true) ∧
      (∀ e, r.stakeEndDate = some e →
        ∃ s d, r.lastStakeDate = some s ∧ r.stakeDurationDays = some d ∧
          e = s + 86400 * d) :=
  have h : StakeInv sampleDB := by
    intro u r hr
    simp only [sampleDB] at hr
    split_ifs at hr
    simp only [Option.some.injEq] at hr
    subst hr
    exact ⟨by simp, by simp⟩
  ⟨h, stake_fields_invariant sampleDB _ h 2⟩

/-! ## Append-only log -/

theorem applyCall_log (db : DB) (c : Call) :
    ((applyCall db c).txns = db.txns ∧ (applyCall db c).nextTxnID = db.nextTxnID) ∨
    ∃ row, (applyCall db c).txns = db.txns ++ [row] ∧ row.id = db.nextTxnID ∧
      (applyCall db c).nextTxnID = db.nextTxnID + 1 := by
  cases c with
  | convert u p now f =>
    simp only [applyCall, ConvertPointsToTokens]
    cases hr : ConvertPointsToTokensTx db u p now f with
    | error e => exact Or.inl ⟨rfl, rfl⟩
    | ok x =>
      obtain ⟨db2, tx⟩ := x
      obtain ⟨q, -, -, hdb, -⟩ := ConvertPointsToTokensTx_ok hr
      subst hdb
      exact Or.inr ⟨_, rfl, rfl, rfl⟩
  | stake u a d now f =>
    simp only [applyCall, StakeTokens]
    split_ifs with ha hd
    · exact Or.inl ⟨rfl, rfl⟩
    · exact Or.inl ⟨rfl, rfl⟩
    · cases hr : StakeTokensTx db u a d now f with
      | error e => exact Or.inl ⟨rfl, rfl⟩
      | ok x =>
        obtain ⟨db2, id⟩ := x
        obtain ⟨r, -, -, -, hdb, -⟩ := StakeTokensTx_ok hr
        subst hdb
        exact Or.inr ⟨_, rfl, rfl, rfl⟩
  | unstake u now f =>
    simp only [applyCall, UnstakeTokens]
    cases hr : UnstakeTokensTx db u now f with
    | error e => exact Or.inl ⟨rfl, rfl⟩
    | ok x =>
      obtain ⟨db2, id⟩ := x
      obtain ⟨r, e, -, -, -, -, hdb, -⟩ := UnstakeTokensTx_ok hr
      subst hdb
      exact Or.inr ⟨_, rfl, rfl, rfl⟩
  | transfer x y a now f =>
    simp only [applyCall, TransferTokens]
    split_ifs with ha
    · exact Or.inl ⟨rfl, rfl⟩
    · cases hr : TransferTokensTx db x y a now f with
      | error e => exact Or.inl ⟨rfl, rfl⟩
      | ok p =>
        obtain ⟨db2, id⟩ := p
        obtain ⟨r, -, -, hdb, -⟩ := TransferTokensTx_ok hr
        subst hdb
        refine Or.inr ⟨{ id := db.nextTxnID, userID := x, type := "TRANSFER", amount := a,
                         pointsConverted := 0, fromUserID := some x, toUserID := some y,
                         description := "Token transfer", createdAt := now,
                         updatedAt := now }, ?_, rfl, ?_⟩
        · simp [insertTransaction, upsertCredit_txns, upsertCredit_nextTxnID]
        · simp [insertTransaction, upsertCredit_nextTxnID]

/-- C19. Append-only log: for every ledger operation (the four mutating calls with
arbitrary arguments and storage faults, and the three queries) and every state, the log
after the operation is the log before it followed by the new rows, so each row present
before is present and identical after; and when the ids of the log are pairwise distinct
and below the next value of the id sequence, they are so afterwards. -/
theorem append_only_log (db : DB) (op : Op) :
    (∃ new, (applyOp db op).txns = db.txns ++ new) ∧
    (DistinctIDs db → SeqAhead db →
      DistinctIDs (applyOp db op) ∧ SeqAhead (applyOp db op)) := by
  cases op with
  | call c =>
    simp only [applyOp]
    rcases applyCall_log db c with ⟨h1, h2⟩ | ⟨row, h1, hid, h2⟩
    · refine ⟨⟨[], by simp [h1]⟩, fun hd hs => ⟨?_, ?_⟩⟩
      · unfold DistinctIDs at hd ⊢
        rw [h1]
        exact hd
      · unfold SeqAhead at hs ⊢
        rw [h1, h2]
        exact hs
    · refine ⟨⟨[row], h1⟩, fun hd hs => ⟨?_, ?_⟩⟩
      · unfold DistinctIDs at hd ⊢
        unfold SeqAhead at hs
        rw [h1, List.map_append, List.nodup_append]
        refine ⟨hd, by simp, ?_⟩
        intro i hi hi2
        simp only [List.map_cons, List.map_nil, List.mem_singleton] at hi2
        obtain ⟨r, hr, hri⟩ := List.mem_map.mp hi
        have := hs r hr
        omega
      · unfold SeqAhead at hs ⊢
        rw [h1, h2]
        intro r hr
        rcases List.mem_append.mp hr with hr | hr
        · have := hs r hr
          omega
        · simp only [List.mem_singleton] at hr
          subst hr
          omega
  | getUserTokens u => exact ⟨⟨[], by simp [applyOp]⟩, fun hd hs => ⟨hd, hs⟩⟩
  | getTransaction id => exact ⟨⟨[], by simp [applyOp]⟩, fun hd hs => ⟨hd, hs⟩⟩
  | getUserTransactions u l o => exact ⟨⟨[], by simp [applyOp]⟩, fun hd hs => ⟨hd, hs⟩⟩

theorem append_only_log_witness :
    DistinctIDs stakedDB ∧ SeqAhead stakedDB ∧
    DistinctIDs (applyOp stakedDB (.call (.unstake 1 2592000 none))) ∧
    SeqAhead (applyOp stakedDB (.call (.unstake 1 2592000 none))) :=
  have ht : stakedDB.txns =
      [{ id := 1, userID := 1, type := "STAKE", amount := 50, pointsConverted := 0,
         fromUserID := none, toUserID := none, description := "Token staking",
         createdAt := 0, updatedAt := 0 }] := by with_unfolding_all rfl
  have hn : stakedDB.nextTxnID = 2 := by with_unfolding_all rfl
  have hd : DistinctIDs stakedDB := by
    unfold DistinctIDs
    rw [ht]
    simp
  have hs : SeqAhead stakedDB := by
    unfold SeqAhead
    rw [ht, hn]
    intro r hr
    simp only [List.mem_singleton] at hr
    subst hr
    decide
  ⟨hd, hs, (append_only_log stakedDB (.call (.unstake 1 2592000 none))).2 hd hs⟩

/-! ## Balance lookup -/

/-- C20. Balance lookup, on the code: GetUserTokens returns the zero account with UserID set
for an absent record and the stored fields for a staked record, but for the Idle record left
by a stake and an unstake (stake columns NULL) it returns the scan error instead of the
record. -/
theorem getUserTokens_idle_scan_error :
    GetUserTokens sampleDB 2 false =
      .ok { ID := 0, UserID := 2, Balance := 0, StakedAmount := 0, LastStakeDate := zeroTime,
            StakeDuration := 0, StakeEndDate := zeroTime, CreatedAt := zeroTime,
            UpdatedAt := zeroTime } ∧
    GetUserTokens stakedDB 1 false =
      .ok { ID := 1, UserID := 1, Balance := 50, StakedAmount := 50, LastStakeDate := 0,
            StakeDuration := 30, StakeEndDate := 2592000, CreatedAt := 0, UpdatedAt := 0 } ∧
    (∃ r, unstakedDB.tokens 1 = some r ∧ r.stakedAmount = 0 ∧ r.balance = 102.5) ∧
    GetUserTokens unstakedDB 1 false = .error .ErrScan := by
  have hrow : unstakedDB.tokens 1 =
      some { id := 1, balance := 50 + 50 + 50 * 0.05, stakedAmount := 0,
             lastStakeDate := none, stakeDurationDays := none, stakeEndDate := none,
             createdAt := 0, updatedAt := 0 } := by
    with_unfolding_all rfl
  refine ⟨rfl, by with_unfolding_all rfl, ⟨_, hrow, rfl, by norm_num⟩, ?_⟩
  simp [GetUserTokens, hrow]

/-! ## Queries -/

/-- C21. History pagination: for limit >= 0 and offset >= 0, GetUserTransactions (storage
not failing) returns the rows of the account, ordered by createdAt descending, after
skipping the first offset of them and keeping at most limit: the result is that slice of a
list that is a permutation of the account's rows sorted newest first; it has at most limit
entries, all with UserID = accountId, with non-increasing CreatedAt. -/
theorem history_pagination (db : DB) (userID : Int) (limit offset : Int)
    (hl : 0 ≤ limit) (ho : 0 ≤ offset) :
    ∃ (all : List TxnRow) (ts : List Transaction),
      all.Perm (db.txns.filter (fun r => r.userID == userID)) ∧
      all.Sorted newerFirst ∧
      ts = ((all.drop offset.toNat).take limit.toNat).map scanTransaction ∧
      GetUserTransactions db userID limit offset false = .ok ts ∧
      (ts.length : Int) ≤ limit ∧
      (∀ t ∈ ts, t.UserID = userID) ∧
      ts.Pairwise (fun a b => b.CreatedAt ≤ a.CreatedAt) := by
  refine ⟨(db.txns.filter (fun r => r.userID == userID)).insertionSort newerFirst, _,
    List.perm_insertionSort _ _, List.sorted_insertionSort _ _, rfl, ?_, ?_, ?_, ?_⟩
  · simp [GetUserTransactions, not_lt.mpr hl, not_lt.mpr ho]
  · simp only [List.length_map, List.length_take]
    have : ((min limit.toNat
        ((List.insertionSort newerFirst
          (db.txns.filter (fun r => r.userID == userID))).drop offset.toNat).length : Nat) : Int)
        ≤ (limit.toNat : Int) := by
      exact_mod_cast Nat.min_le_left _ _
    rw [Int.toNat_of_nonneg hl] at this
    exact this
  · intro t ht
    obtain ⟨r, hr, rfl⟩ := List.mem_map.mp ht
    have h1 := List.mem_of_mem_drop (List.mem_of_mem_take hr)
    have h2 := (List.perm_insertionSort newerFirst _).mem_iff.mp h1
    have h3 := (List.mem_filter.mp h2).2
    simpa [scanTransaction] using h3
  · rw [List.pairwise_map]
    have hs : ((db.txns.filter (fun r => r.userID == userID)).insertionSort newerFirst).Pairwise
        newerFirst := List.sorted_insertionSort _ _
    have hsub : (((db.txns.filter (fun r => r.userID == userID)).insertionSort newerFirst).drop
        offset.toNat).take limit.toNat |>.Sublist
        ((db.txns.filter (fun r => r.userID == userID)).insertionSort newerFirst) :=
      (List.take_sublist _ _).trans (List.drop_sublist _ _)
    exact (hs.sublist hsub).imp (fun h => h)

theorem history_pagination_witness :
    GetUserTransactions historyDB 1 2 0 false =
      .ok [{ ID := 4, UserID := 1, Type_ := "TRANSFER", Amount := 3, PointsConverted := 0,
             Description := "Token transfer", CreatedAt := 3, UpdatedAt := 3 },
           { ID := 3, UserID := 1, Type_ := "STAKE", Amount := 4, PointsConverted := 0,
             Description := "Token staking", CreatedAt := 2, UpdatedAt := 2 }] ∧
    ∃ (all : List TxnRow) (ts : List Transaction),
      all.Perm (historyDB.txns.filter (fun r => r.userID == 1)) ∧
      all.Sorted newerFirst ∧
      ts = ((all.drop (0 : Int).toNat).take (2 : Int).toNat).map scanTransaction ∧
      GetUserTransactions historyDB 1 2 0 false = .ok ts ∧
      (ts.length : Int) ≤ 2 ∧
      (∀ t ∈ ts, t.UserID = 1) ∧
      ts.Pairwise (fun a b => b.CreatedAt ≤ a.CreatedAt) :=
  ⟨by with_unfolding_all rfl, history_pagination historyDB 1 2 0 (by decide) (by decide)⟩

theorem GetTransaction_eq_find (db : DB) (id : Int) :
    GetTransaction db id false =
      match db.txns.find? (fun r => r.id == id) with
      | none => .error .ErrNoRows
      | some r => .ok (scanTransaction r) := by
  unfold GetTransaction scanTransaction
  simp

theorem find_id_of_nodup (l : List TxnRow) (id : Int) (hd : (l.map TxnRow.id).Nodup)
    (r : TxnRow) (hr : r ∈ l) (hid : r.id = id) :
    l.find? (fun x => x.id == id) = some r := by
  induction l with
  | nil => cases hr
  | cons a l ih =>
    simp only [List.map_cons, List.nodup_cons] at hd
    rcases List.mem_cons.mp hr with rfl | hr
    · simp [hid]
    · have hne : a.id ≠ id := by
        intro ha
        exact hd.1 (List.mem_map.mpr ⟨r, hr, by rw [hid, ha]⟩)
      simp [List.find?_cons, hne, ih hd.2 hr]

theorem GetTransaction_ok_ID {db : DB} {id : Int} {b : Bool} {t : Transaction}
    (h : GetTransaction db id b = .ok t) : b = false ∧ t.ID = id := by
  unfold GetTransaction at h
  cases b with
  | true => simp at h
  | false =>
    refine ⟨rfl, ?_⟩
    simp only [Bool.false_eq_true, if_false] at h
    rcases hfind : db.txns.find? (fun r => r.id == id) with _ | r
    · simp [hfind] at h
    · simp only [hfind, Except.ok.injEq] at h
      have := List.find?_some hfind
      rw [← h]
      simpa using this

/-- C22. Transaction point lookup: GetTransaction(id) (storage not failing) returns a
stored transaction whose id is id, with its stored userID, type, amount, pointsConverted and
description, when one exists (the only one, ids being pairwise distinct), and fails, with
sql.ErrNoRows, if and only if no transaction has that id; the transaction returned by a
successful StakeTokens, UnstakeTokens or TransferTokens is found under its id. -/
theorem transaction_lookup (db : DB) (id : Int) :
    ((∃ r ∈ db.txns, r.id = id) →
      ∃ r ∈ db.txns, r.id = id ∧ GetTransaction db id false = .ok (scanTransaction r)) ∧
    (DistinctIDs db → ∀ r ∈ db.txns, r.id = id →
      GetTransaction db id false = .ok (scanTransaction r)) ∧
    ((∃ e, GetTransaction db id false = .error e) ↔ ∀ r ∈ db.txns, r.id ≠ id) ∧
    (∀ e, GetTransaction db id false = .error e → e = .ErrNoRows) ∧
    (∀ (c : Call) (t : Transaction), c.isConvert = false → callResult db c = .ok t →
      GetTransaction (applyCall db c) t.ID false = .ok t) := by
  refine ⟨?_, ?_, ?_, ?_, ?_⟩
  · rintro ⟨r, hr, hid⟩
    rw [GetTransaction_eq_find]
    rcases hfind : db.txns.find? (fun r => r.id == id) with _ | r2
    · rw [List.find?_eq_none] at hfind
      have := hfind r hr
      simp [hid] at this
    · have h1 := List.find?_some hfind
      exact ⟨r2, List.mem_of_find?_eq_some hfind, by simpa using h1, by simp only [hfind]⟩
  · intro hd r hr hid
    rw [GetTransaction_eq_find, find_id_of_nodup db.txns id hd r hr hid]
  · rw [GetTransaction_eq_find]
    rcases hfind : db.txns.find? (fun r => r.id == id) with _ | r2
    · have hnone := hfind
      rw [List.find?_eq_none] at hfind
      refine ⟨fun _ r hr => by simpa using hfind r hr, fun _ => ⟨.ErrNoRows, ?_⟩⟩
      simp only [hnone]
    · constructor
      · rintro ⟨e, he⟩
        simp only [hfind] at he
        cases he
      · intro hall
        have h1 := List.find?_some hfind
        exact absurd (by simpa using h1) (hall r2 (List.mem_of_find?_eq_some hfind))
  · intro e he
    rw [GetTransaction_eq_find] at he
    rcases hfind : db.txns.find? (fun r => r.id == id) with _ | r2
    · simp only [hfind, Except.error.injEq] at he
      exact he.symm
    · simp [hfind] at he
  · intro c t hc h
    cases c with
    | convert u p now f => simp [Call.isConvert] at hc
    | stake u a d now f =>
      simp only [callResult, applyCall, StakeTokens] at h ⊢
      split_ifs at h ⊢ with ha hd
      cases hr : StakeTokensTx db u a d now f with
      | error e => simp [hr] at h
      | ok x =>
        obtain ⟨db2, txnID⟩ := x
        simp only [hr] at h ⊢
        obtain ⟨hb, hid⟩ := GetTransaction_ok_ID h
        rw [hb] at h
        rw [hid]
        exact h
    | unstake u now f =>
      simp only [callResult, applyCall, UnstakeTokens] at h ⊢
      cases hr : UnstakeTokensTx db u now f with
      | error e => simp [hr] at h
      | ok x =>
        obtain ⟨db2, txnID⟩ := x
        simp only [hr] at h ⊢
        obtain ⟨hb, hid⟩ := GetTransaction_ok_ID h
        rw [hb] at h
        rw [hid]
        exact h
    | transfer x y a now f =>
      simp only [callResult, applyCall, TransferTokens] at h ⊢
      split_ifs at h ⊢ with ha
      cases hr : TransferTokensTx db x y a now f with
      | error e => simp [hr] at h
      | ok p =>
        obtain ⟨db2, txnID⟩ := p
        simp only [hr] at h ⊢
        obtain ⟨hb, hid⟩ := GetTransaction_ok_ID h
        rw [hb] at h
        rw [hid]
        exact h

theorem transaction_lookup_witness :
    GetTransaction historyDB 3 false =
      .ok { ID := 3, UserID := 1, Type_ := "STAKE", Amount := 4, PointsConverted := 0,
            Description := "Token staking", CreatedAt := 2, UpdatedAt := 2 } ∧
    ((∃ e, GetTransaction historyDB 9 false = .error e) ↔ ∀ r ∈ historyDB.txns, r.id ≠ 9) :=
  ⟨rfl, (transaction_lookup historyDB 9).2.2.1⟩

/-! ## Conversion on a vanished account -/

/-- Without a concurrent commit the interleaved statements are `ConvertPointsToTokens`. -/
theorem ConvertPointsToTokensInterleaved_id (db : DB) (u pts : Int) (now : Time) :
    ConvertPointsToTokensInterleaved db u pts now (fun d => d)
      = ConvertPointsToTokens db u pts now none := by
  unfold ConvertPointsToTokensInterleaved ConvertPointsToTokens ConvertPointsToTokensTx
  rcases hu : db.users u with _ | p
  · simp [storageFails]
  · by_cases hlt : p < pts
    · simp [storageFails, hlt]
    · simp [storageFails, hlt, insertTransaction, hu]

/-- C23. Conversion on a vanished account: when the user record does not exist at the read,
ConvertPointsToTokens (storage not failing) fails with sql.ErrNoRows and the database is
unchanged; when the record exists with enough points at the read but has been deleted by a
concurrent transaction before the points decrement, which then affects zero rows, the call
fails with sql.ErrNoRows and the database is the one left by the concurrent transaction:
no EARN row of this call is in the log. -/
theorem convert_vanished_account (db : DB) (u pts : Int) (now : Time) :
    (db.users u = none → ConvertPointsToTokens db u pts now none = (db, .error .ErrNoRows)) ∧
    (∀ (concurrent : DB → DB) (p : Int), db.users u = some p → pts ≤ p →
      (concurrent db).users u = none →
      ConvertPointsToTokensInterleaved db u pts now concurrent
        = (concurrent db, .error .ErrNoRows)) := by
  constructor
  · intro hu
    simp [ConvertPointsToTokens, ConvertPointsToTokensTx, storageFails, hu]
  · intro concurrent p hu hle hgone
    simp [ConvertPointsToTokensInterleaved, hu, not_lt.mpr hle, insertTransaction, hgone]

theorem convert_vanished_account_witness :
    ConvertPointsToTokens sampleDB 7 10 0 none = (sampleDB, .error .ErrNoRows) ∧
    (ConvertPointsToTokensInterleaved sampleDB 1 100 0
      (fun d => { d with users := Function.update d.users 1 none })).2 = .error .ErrNoRows ∧
    (ConvertPointsToTokensInterleaved sampleDB 1 100 0
      (fun d => { d with users := Function.update d.users 1 none })).1.txns = [] :=
  have h := convert_vanished_account sampleDB 1 100 0
  have h7 := convert_vanished_account sampleDB 7 10 0
  have h2 := h.2 (fun d => { d with users := Function.update d.users 1 none }) 200 rfl
    (by decide) rfl
  ⟨h7.1 rfl, by rw [h2], by rw [h2]; rfl⟩

/-! ## Self-transfer and the frame of a transfer -/

/-- C25. No double credit on self-transfer: for an account a with balance >= amount > 0,
TransferTokens(a, a, amount) (storage not failing) succeeds, leaves the record of a, and so
its balance, exactly as before the call, and appends exactly one TRANSFER row. -/
theorem self_transfer_no_double_credit (db : DB) (a : Int) (amt : ℚ) (now : Time)
    (hpos : 0 < amt) (hbal : amt ≤ balanceOf db a) :
    (∃ t, (TransferTokens db a a amt now none).2 = .ok t) ∧
    balanceOf (TransferTokens db a a amt now none).1 a = balanceOf db a ∧
    (TransferTokens db a a amt now none).1.tokens = db.tokens ∧
    (TransferTokens db a a amt now none).1.txns =
      db.txns ++ [{ id := db.nextTxnID, userID := a, type := "TRANSFER", amount := amt,
                    pointsConverted := 0, fromUserID := some a, toUserID := some a,
                    description := "Token transfer", createdAt := now, updatedAt := now }] := by
  obtain ⟨r, hu, hle⟩ : ∃ r, db.tokens a = some r ∧ amt ≤ r.balance := by
    unfold balanceOf at hbal
    rcases hu : db.tokens a with _ | r
    · simp only [hu] at hbal
      exact absurd hpos (not_lt.mpr hbal)
    · simp only [hu] at hbal
      exact ⟨r, rfl, hbal⟩
  have hna : ¬ amt ≤ 0 := not_le.mpr hpos
  have htok : (TransferTokens db a a amt now none).1.tokens = db.tokens := by
    simp only [TransferTokens, hna, if_false, TransferTokensTx_none a now hu hle,
      insertTransaction, upsertCredit, Function.update_same]
    funext w
    by_cases hw : w = a
    · subst hw
      simp [hu]
    · simp [Function.update_apply, hw]
  refine ⟨?_, ?_, htok, ?_⟩
  · simp only [TransferTokens, hna, if_false, TransferTokensTx_none a now hu hle, storageFails]
    exact GetTransaction_insertTransaction_ok _ _ _ _ _ _ _ _ _
  · unfold balanceOf
    rw [htok]
  · simp [TransferTokens, hna, TransferTokensTx_none a now hu hle, insertTransaction,
      upsertCredit_txns, upsertCredit_nextTxnID]

theorem self_transfer_no_double_credit_witness :
    balanceOf (TransferTokens sampleDB 1 1 40 0 none).1 1 = 100 ∧
    (TransferTokens sampleDB 1 1 40 0 none).1.txns.length = 1 :=
  have h := self_transfer_no_double_credit sampleDB 1 40 0 (by norm_num)
    (by norm_num [balanceOf, sampleDB])
  ⟨h.2.1.trans (by norm_num [balanceOf, sampleDB]), by rw [h.2.2.2]; rfl⟩

theorem upsertCredit_keeps (db : DB) (v : Int) (a : ℚ) (now : Time) (w : Int) (r : TokenRow)
    (hw : db.tokens w = some r) :
    ∃ b, (upsertCredit db v a now).tokens w = some { r with balance := b } := by
  unfold upsertCredit
  by_cases hwv : w = v
  · subst hwv
    simp only [hw, Function.update_same]
    exact ⟨_, rfl⟩
  · rcases hv : db.tokens v with _ | rv
    · exact ⟨r.balance, by simp [Function.update_apply, hwv, hw]⟩
    · exact ⟨r.balance, by simp [Function.update_apply, hwv, hw]⟩

theorem upsertCredit_other (db : DB) (v : Int) (a : ℚ) (now : Time) (w : Int) (hwv : w ≠ v) :
    (upsertCredit db v a now).tokens w = db.tokens w := by
  unfold upsertCredit
  rcases hv : db.tokens v with _ | rv <;> simp [Function.update_apply, hwv]

theorem stakeDatesOf_upsertCredit (db : DB) (v w : Int) (a : ℚ) (now : Time) :
    stakeDatesOf (upsertCredit db v a now) w = stakeDatesOf db w := by
  unfold upsertCredit stakeDatesOf
  rcases hv : db.tokens v with _ | r <;> by_cases hwv : w = v
  · subst hwv; simp [hv]
  · simp [hwv, Function.update_apply]
  · subst hwv; simp [hv]
  · simp [hwv, Function.update_apply]

theorem TransferTokens_ok_fst {db : DB} {u v : Int} {a : ℚ} {now : Time} {f : Option Nat}
    {t : Transaction} (h : (TransferTokens db u v a now f).2 = .ok t) :
    ∃ r, db.tokens u = some r ∧ a ≤ r.balance ∧
      (TransferTokens db u v a now f).1 =
        (insertTransaction
          (upsertCredit
            { db with
              tokens := Function.update db.tokens u (some { r with balance := r.balance - a }) }
            v a now)
          u "TRANSFER" a 0 (some u) (some v) "Token transfer" now).1 := by
  unfold TransferTokens at h ⊢
  split_ifs at h ⊢ with ha
  cases hr : TransferTokensTx db u v a now f with
  | error e => simp [hr] at h
  | ok p =>
    obtain ⟨db2, id⟩ := p
    obtain ⟨r, hu, hle, hdb, -⟩ := TransferTokensTx_ok hr
    exact ⟨r, hu, hle, hdb⟩

/-- C27. Transfer frame: after a successful TransferTokens(from, to, amount) every points
balance is unchanged, the staked amount and the stake start date, duration and end date of
every account (sender and receiver included, an absent record counting as Idle with no
dates) are unchanged, every stored record keeps all its fields except possibly the
balance, and the record of every third account is unchanged as a whole; so the staked
amount of the sender is not spent. -/
theorem transfer_frame (db : DB) (u v : Int) (a : ℚ) (now : Time) (f : Option Nat)
    (t : Transaction) (h : (TransferTokens db u v a now f).2 = .ok t) :
    (TransferTokens db u v a now f).1.users = db.users ∧
    (∀ w, stakedOf (TransferTokens db u v a now f).1 w = stakedOf db w) ∧
    (∀ w, stakeDatesOf (TransferTokens db u v a now f).1 w = stakeDatesOf db w) ∧
    (∀ w r, db.tokens w = some r →
      ∃ b, (TransferTokens db u v a now f).1.tokens w = some { r with balance := b }) ∧
    (∀ w, w ≠ u → w ≠ v → (TransferTokens db u v a now f).1.tokens w = db.tokens w) := by
  obtain ⟨r, hu, -, hfst⟩ := TransferTokens_ok_fst h
  rw [hfst]
  refine ⟨?_, fun w => ?_, ?_, ?_, ?_⟩
  · exact upsertCredit_users _ v a now
  · rw [← hfst]
    exact stakedOf_TransferTokens db u v w a now f
  · intro w
    show stakeDatesOf (upsertCredit _ v a now) w = _
    rw [stakeDatesOf_upsertCredit]
    unfold stakeDatesOf
    by_cases hwu : w = u
    · subst hwu
      simp [hu]
    · simp [Function.update_apply, hwu]
  · intro w rw hw
    by_cases hwu : w = u
    · subst hwu
      rw [hu] at hw
      cases hw
      obtain ⟨b, hb⟩ := upsertCredit_keeps
        { db with
          tokens := Function.update db.tokens w (some { r with balance := r.balance - a }) }
        v a now w { r with balance := r.balance - a } (by simp)
      exact ⟨b, hb⟩
    · exact upsertCredit_keeps _ v a now w rw (by simp [Function.update_apply, hwu, hw])
  · intro w hwu hwv
    show (upsertCredit _ v a now).tokens w = _
    rw [upsertCredit_other _ v a now w hwv]
    simp [Function.update_apply, hwu]

theorem transfer_frame_witness :
    (TransferTokens stakedDB 1 2 40 5 none).1.users = stakedDB.users ∧
    stakedOf (TransferTokens stakedDB 1 2 40 5 none).1 1 = stakedOf stakedDB 1 :=
  have h := transfer_frame stakedDB 1 2 40 5 none
    { ID := 2, UserID := 1, Type_ := "TRANSFER", Amount := 40, PointsConverted := 0,
      Description := "Token transfer", CreatedAt := 5, UpdatedAt := 5 }
    (by with_unfolding_all rfl)
  ⟨h.1, h.2.1 1⟩

/-! ## HTTP status of the token handlers -/

theorem StakeTokensTx_error {db : DB} {u : Int} {a : ℚ} {d : Int} {now : Time}
    {f : Option Nat} {e : Err} (h : StakeTokensTx db u a d now f = .error e) :
    e = .ErrAlreadyStaked ∨ e = .ErrInsufficientBalance ∨ e = .ErrStorage := by
  unfold StakeTokensTx at h
  rcases hu : db.tokens u with _ | r <;> simp only [hu] at h <;> split_ifs at h <;>
    simp only [Except.error.injEq] at h <;> subst h <;> simp

theorem UnstakeTokensTx_error {db : DB} {u : Int} {now : Time} {f : Option Nat} {e : Err}
    (h : UnstakeTokensTx db u now f = .error e) :
    e = .ErrNoStakedTokens ∨ e = .ErrStakePeriodActive ∨ e = .ErrStorage ∨ e = .ErrNoRows ∨
      e = .ErrScan := by
  unfold UnstakeTokensTx at h
  rcases hu : db.tokens u with _ | r
  · simp only [hu] at h
    split_ifs at h <;> simp only [Except.error.injEq] at h <;> subst h <;> simp
  · rcases he : r.stakeEndDate with _ | en
    · simp only [hu, he] at h
      split_ifs at h <;> simp only [Except.error.injEq] at h <;> subst h <;> simp
    · simp only [hu, he] at h
      split_ifs at h <;> simp only [Except.error.injEq] at h <;> subst h <;> simp

theorem TransferTokensTx_error {db : DB} {u v : Int} {a : ℚ} {now : Time}
    {f : Option Nat} {e : Err} (h : TransferTokensTx db u v a now f = .error e) :
    e = .ErrInsufficientBalance ∨ e = .ErrStorage := by
  unfold TransferTokensTx at h
  rcases hu : db.tokens u with _ | r <;> simp only [hu] at h <;> split_ifs at h <;>
    simp only [Except.error.injEq] at h <;> subst h <;> simp

/-- The handlers `stakeTokens`, `unstakeTokens` and `transferTokens` answer 400 to every
error of the ledger taxonomy returned by the service operation they call. -/
theorem other_handlers_status (db : DB) (u v : Int) (a : ℚ) (d : Int) (now : Time)
    (f : Option Nat) (e : Err) (he : e.inTaxonomy = true) :
    ((StakeTokens db u a d now f).2 = .error e → (stakeTokens db u a d now f).2 = 400) ∧
    ((UnstakeTokens db u now f).2 = .error e → (unstakeTokens db u now f).2 = 400) ∧
    ((TransferTokens db u v a now f).2 = .error e →
      (transferTokens db u v a now f).2 = 400) := by
  refine ⟨?_, ?_, ?_⟩
  · intro h
    unfold stakeTokens
    split_ifs with hv
    · have hcases : e = .ErrInvalidAmount ∨ e = .ErrInvalidStakePeriod ∨
          e = .ErrAlreadyStaked ∨ e = .ErrInsufficientBalance := by
        unfold StakeTokens at h
        split_ifs at h with ha hd
        · simp only [Except.error.injEq] at h
          exact Or.inl h.symm
        · simp only [Except.error.injEq] at h
          exact Or.inr (Or.inl h.symm)
        · cases hr : StakeTokensTx db u a d now f with
          | error e2 =>
            simp only [hr, Except.error.injEq] at h
            subst h
            rcases StakeTokensTx_error hr with h1 | h1 | h1
            · exact Or.inr (Or.inr (Or.inl h1))
            · exact Or.inr (Or.inr (Or.inr h1))
            · rw [h1] at he
              simp [Err.inTaxonomy] at he
          | ok x =>
            obtain ⟨db2, id⟩ := x
            simp only [hr] at h
            rcases GetTransaction_error _ _ _ _ h with h1 | h1 <;> rw [h1] at he <;>
              simp [Err.inTaxonomy] at he
      rcases hs : StakeTokens db u a d now f with ⟨db2, res⟩
      rw [hs] at h
      simp only at h
      subst h
      rcases hcases with h1 | h1 | h1 | h1 <;> subst h1 <;> simp
    · rfl
  · intro h
    unfold unstakeTokens
    have hcases : e = .ErrNoStakedTokens ∨ e = .ErrStakePeriodActive := by
      unfold UnstakeTokens at h
      cases hr : UnstakeTokensTx db u now f with
      | error e2 =>
        simp only [hr, Except.error.injEq] at h
        subst h
        rcases UnstakeTokensTx_error hr with h1 | h1 | h1 | h1 | h1
        · exact Or.inl h1
        · exact Or.inr h1
        all_goals (rw [h1] at he; simp [Err.inTaxonomy] at he)
      | ok x =>
        obtain ⟨db2, id⟩ := x
        simp only [hr] at h
        rcases GetTransaction_error _ _ _ _ h with h1 | h1 <;> rw [h1] at he <;>
          simp [Err.inTaxonomy] at he
    rcases hs : UnstakeTokens db u now f with ⟨db2, res⟩
    rw [hs] at h
    simp only at h
    subst h
    rcases hcases with h1 | h1 <;> subst h1 <;> simp
  · intro h
    unfold transferTokens
    split_ifs with hv huv
    · rfl
    · have hcases : e = .ErrInvalidAmount ∨ e = .ErrInsufficientBalance := by
        unfold TransferTokens at h
        split_ifs at h with ha
        · simp only [Except.error.injEq] at h
          exact Or.inl h.symm
        · cases hr : TransferTokensTx db u v a now f with
          | error e2 =>
            simp only [hr, Except.error.injEq] at h
            subst h
            rcases TransferTokensTx_error hr with h1 | h1
            · exact Or.inr h1
            · rw [h1] at he
              simp [Err.inTaxonomy] at he
          | ok x =>
            obtain ⟨db2, id⟩ := x
            simp only [hr] at h
            rcases GetTransaction_error _ _ _ _ h with h1 | h1 <;> rw [h1] at he <;>
              simp [Err.inTaxonomy] at he
      rcases hs : TransferTokens db u v a now f with ⟨db2, res⟩
      rw [hs] at h
      simp only at h
      subst h
      rcases hcases with h1 | h1 <;> subst h1 <;> simp
    · rfl

/-- C26. Client-error mapping, on the code: for a user with 50 points, a convert request
for 100 points passes the binding, ConvertPointsToTokens returns ErrInsufficientPoints, an
error of the ledger taxonomy, and the convertPoints handler answers with status 500, not
400. -/
theorem convertPoints_insufficient_points_500 :
    ConvertRequest.valid 100 = true ∧
    (ConvertPointsToTokens sampleDB 2 100 0 none).2 = .error .ErrInsufficientPoints ∧
    Err.inTaxonomy .ErrInsufficientPoints = true ∧
    (convertPoints sampleDB 2 100 0 none).2 = 500 := by
  refine ⟨rfl, rfl, rfl, rfl⟩

end Token

/-! # Theorems on face detection -/

namespace Face

/-- C24. Face detection input guards: for a nil image DetectFace returns an error and no
result; for every non-nil image whose width is below 64 or whose height is below 64 it
returns no error and an empty list of faces, whatever the pixel colours (and whatever the
fuel of the model). -/
theorem detectFace_input_guards :
    (∀ fuel, DetectFace fuel none = some (.error "input image is nil")) ∧
    (∀ fuel (img : Image), (img.Bounds.Dx < 64 ∨ img.Bounds.Dy < 64) →
      DetectFace fuel (some img) = some (.ok { Faces := [] })) := by
  constructor
  · intro fuel
    rfl
  · intro fuel img h
    simp [DetectFace, h]

theorem detectFace_input_guards_witness :
    DetectFace 0 (some smallImage) = some (.ok { Faces := [] }) :=
  detectFace_input_guards.2 0 smallImage (Or.inl (by decide))

theorem scanRow_spec (img : Image) (bs y : Int) (hstep : 0 < bs.tdiv 2) :
    ∀ (fuel : Nat) (x : Int), 0 ≤ x → 0 < fuel → img.Bounds.Dx - bs - x < fuel →
      ∃ res, scanRow img bs y fuel x = some res ∧
        ∀ face, res = some face →
          ∃ x2, 0 ≤ x2 ∧ x2 < img.Bounds.Dx - bs ∧ face = blockFace x2 y bs := by
  intro fuel
  induction fuel with
  | zero =>
    intro x hx h0 hf
    exact absurd h0 (lt_irrefl 0)
  | succ n ih =>
    intro x hx h0 hf
    simp only [scanRow]
    push_cast at hf
    split_ifs with hlt hface
    · exact ⟨_, rfl, fun face h => ⟨x, hx, hlt, by cases h; rfl⟩⟩
    · exact ih (x + bs.tdiv 2) (by omega) (by omega) (by omega)
    · exact ⟨none, rfl, fun face h => by cases h⟩

theorem scanRows_spec (img : Image) (bs : Int) (rowFuel : Nat) (hstep : 0 < bs.tdiv 2)
    (hrow0 : 0 < rowFuel) (hrow : img.Bounds.Dx - bs < rowFuel) :
    ∀ (fuel : Nat) (y : Int), 0 ≤ y → 0 < fuel → img.Bounds.Dy - bs - y < fuel →
      ∃ faces, scanRows img bs rowFuel fuel y = some faces ∧ faces.length ≤ 1 ∧
        ∀ face ∈ faces,
          ∃ x2 y2, 0 ≤ x2 ∧ x2 < img.Bounds.Dx - bs ∧ 0 ≤ y2 ∧ y2 < img.Bounds.Dy - bs ∧
            face = blockFace x2 y2 bs := by
  intro fuel
  induction fuel with
  | zero =>
    intro y hy h0 hf
    exact absurd h0 (lt_irrefl 0)
  | succ n ih =>
    intro y hy h0 hf
    simp only [scanRows]
    push_cast at hf
    split_ifs with hlt
    · obtain ⟨res, hres, hspec⟩ := scanRow_spec img bs y hstep rowFuel 0 (le_refl 0) hrow0
        (by omega)
      rw [hres]
      cases res with
      | none =>
        exact ih (y + bs.tdiv 2) (by omega) (by omega) (by omega)
      | some face =>
        obtain ⟨x2, hx0, hx1, hface⟩ := hspec face rfl
        refine ⟨[face], rfl, by simp, ?_⟩
        intro g hg
        simp only [List.mem_singleton] at hg
        subst hg
        exact ⟨x2, y, hx0, hx1, hy, hlt, hface⟩
    · exact ⟨[], rfl, by simp, by simp⟩

theorem blockFace_shape (x y bs : Int) (hbs : 16 ≤ bs) :
    (blockFace x y bs).Box =
      { Min := { X := x, Y := y }, Max := { X := x + bs, Y := y + bs } } ∧
    (blockFace x y bs).Landmarks.length = 3 ∧
    ∀ p ∈ (blockFace x y bs).Landmarks, p.In (blockFace x y bs).Box = true := by
  have h3 : bs.tdiv 3 = bs / 3 := Int.tdiv_eq_ediv (by omega) (by omega)
  have h23 : (2 * bs).tdiv 3 = 2 * bs / 3 := Int.tdiv_eq_ediv (by omega) (by omega)
  have h2 : bs.tdiv 2 = bs / 2 := Int.tdiv_eq_ediv (by omega) (by omega)
  have hbox : (blockFace x y bs).Box =
      { Min := { X := x, Y := y }, Max := { X := x + bs, Y := y + bs } } := by
    have hx : ¬ x > x + bs := by omega
    have hy : ¬ y > y + bs := by omega
    simp [blockFace, Rect, hx, hy]
  refine ⟨hbox, rfl, ?_⟩
  intro p hp
  rw [hbox]
  simp only [blockFace, List.mem_cons, List.mem_singleton, List.not_mem_nil, or_false] at hp
  rcases hp with rfl | rfl | rfl <;>
    simp only [Point.In, Bool.and_eq_true, decide_eq_true_eq, h3, h23, h2] <;>
    omega

/-- C29. Face detection result shape: for every image with width >= 64 and height >= 64 the
scan step blockSize/2 (blockSize = width/4) is positive and DetectFace terminates (fuel
width and height suffices) with no error and at most one face; a returned face has a
blockSize × blockSize box at some (x, y) with 0 <= x, x + blockSize < width, 0 <= y,
y + blockSize < height, and exactly three landmarks, each lying inside that box. -/
theorem detectFace_shape (img : Image) (fuel : Nat)
    (hw : 64 ≤ img.Bounds.Dx) (hh : 64 ≤ img.Bounds.Dy)
    (hfuel : img.Bounds.Dx ≤ fuel ∧ img.Bounds.Dy ≤ fuel) :
    0 < (img.Bounds.Dx.tdiv 4).tdiv 2 ∧
    ∃ faces, DetectFace fuel (some img) = some (.ok { Faces := faces }) ∧
      faces.length ≤ 1 ∧
      ∀ face ∈ faces, ∃ x y,
        face.Box = { Min := { X := x, Y := y },
                     Max := { X := x + img.Bounds.Dx.tdiv 4, Y := y + img.Bounds.Dx.tdiv 4 } } ∧
        0 ≤ x ∧ x + img.Bounds.Dx.tdiv 4 < img.Bounds.Dx ∧
        0 ≤ y ∧ y + img.Bounds.Dx.tdiv 4 < img.Bounds.Dy ∧
        face.Landmarks.length = 3 ∧
        ∀ p ∈ face.Landmarks, p.In face.Box = true := by
  have h4 : img.Bounds.Dx.tdiv 4 = img.Bounds.Dx / 4 := Int.tdiv_eq_ediv (by omega) (by omega)
  have hbs : 16 ≤ img.Bounds.Dx.tdiv 4 := by rw [h4]; omega
  have h2 : (img.Bounds.Dx.tdiv 4).tdiv 2 = img.Bounds.Dx.tdiv 4 / 2 :=
    Int.tdiv_eq_ediv (by omega) (by omega)
  have hstep : 0 < (img.Bounds.Dx.tdiv 4).tdiv 2 := by rw [h2]; omega
  refine ⟨hstep, ?_⟩
  have hf0 : 0 < fuel := by
    have := hfuel.1
    omega
  obtain ⟨faces, hscan, hlen, hshape⟩ :=
    scanRows_spec img (img.Bounds.Dx.tdiv 4) fuel hstep hf0 (by have := hfuel.1; omega)
      fuel 0 (le_refl 0) hf0 (by have := hfuel.2; omega)
  refine ⟨faces, ?_, hlen, ?_⟩
  · have hguard : ¬ (img.Bounds.Dx < 64 ∨ img.Bounds.Dy < 64) := by omega
    simp only [DetectFace, hguard, if_false, hscan]
  · intro face hface
    obtain ⟨x2, y2, hx0, hx1, hy0, hy1, rfl⟩ := hshape face hface
    obtain ⟨hbox, hl, hin⟩ := blockFace_shape x2 y2 (img.Bounds.Dx.tdiv 4) hbs
    exact ⟨x2, y2, hbox, hx0, by omega, hy0, by omega, hl, hin⟩

theorem detectFace_shape_witness :
    (64 : Int) ≤ skinImage.Bounds.Dx ∧ (64 : Int) ≤ skinImage.Bounds.Dy ∧
    DetectFace 64 (some skinImage) = some (.ok { Faces := [blockFace 0 0 16] }) ∧
    ∃ faces, DetectFace 64 (some skinImage) = some (.ok { Faces := faces }) ∧
      faces.length ≤ 1 ∧
      ∀ face ∈ faces, ∃ x y,
        face.Box = { Min := { X := x, Y := y },
                     Max := { X := x + skinImage.Bounds.Dx.tdiv 4,
                              Y := y + skinImage.Bounds.Dx.tdiv 4 } } ∧
        0 ≤ x ∧ x + skinImage.Bounds.Dx.tdiv 4 < skinImage.Bounds.Dx ∧
        0 ≤ y ∧ y + skinImage.Bounds.Dx.tdiv 4 < skinImage.Bounds.Dy ∧
        face.Landmarks.length = 3 ∧
        ∀ p ∈ face.Landmarks, p.In face.Box = true :=
  ⟨by decide, by decide, by with_unfolding_all rfl,
   (detectFace_shape skinImage 64 (by decide) (by decide) ⟨by decide, by decide⟩).2⟩

end Face

/-! # Values of the float64 rounding -/

namespace Float64

theorem round_percent_two_thirds :
    round (round (2 / 3) * 100) = 2345624805922133 / 35184372088832 := by
  with_unfolding_all rfl

theorem round_percent_one_third :
    round (round (1 / 3) * 100) = 2345624805922133 / 70368744177664 := by
  with_unfolding_all rfl

theorem round_percent_eight_tenths : round (round (8 / 10) * 100) = 80 := by
  with_unfolding_all rfl

end Float64

/-! # Theorems on the verification success rate -/

namespace Analytics

/-- C28. Verification success rate: the VERIFICATION_SUCCESS_RATE metric stored by
UpdateUserEngagement is calculateSuccessRate(total, successful), which is
successful / total × 100 (each of the two operations rounded) when total > 0 and 0 when
total <= 0, so that no division by zero takes place; for 0 <= successful <= total it lies in
[0, 100], in exact arithmetic and under every monotone rounding that leaves 0, 1 and 100
unchanged; total 10 and successful 8 give 80, in exact arithmetic and in float64. -/
theorem success_rate (rnd : ℚ → ℚ) (activityCount total successful : ℚ) :
    engagementMetrics rnd activityCount total successful =
      [("ACTIVITY_COUNT", activityCount),
       ("VERIFICATION_SUCCESS_RATE", calculateSuccessRate rnd total successful)] ∧
    (0 < total →
      calculateSuccessRate rnd total successful = rnd (rnd (successful / total) * 100) ∧
      calculateSuccessRate (fun q => q) total successful = successful / total * 100) ∧
    (total ≤ 0 → calculateSuccessRate rnd total successful = 0) ∧
    (0 ≤ successful → successful ≤ total →
      0 ≤ calculateSuccessRate (fun q => q) total successful ∧
      calculateSuccessRate (fun q => q) total successful ≤ 100) ∧
    ((∀ a b, a ≤ b → rnd a ≤ rnd b) → rnd 0 = 0 → rnd 1 = 1 → rnd 100 = 100 →
      0 ≤ successful → successful ≤ total →
      0 ≤ calculateSuccessRate rnd total successful ∧
      calculateSuccessRate rnd total successful ≤ 100) ∧
    calculateSuccessRate (fun q => q) 10 8 = 80 ∧
    calculateSuccessRate Float64.round 10 8 = 80 := by
  have range : ∀ (r : ℚ → ℚ), (∀ a b, a ≤ b → r a ≤ r b) → r 0 = 0 → r 1 = 1 →
      r 100 = 100 → 0 ≤ successful → successful ≤ total →
      0 ≤ calculateSuccessRate r total successful ∧
      calculateSuccessRate r total successful ≤ 100 := by
    intro r hmono h0 h1 h100 hs hle
    unfold calculateSuccessRate
    split_ifs with ht
    · have hq0 : 0 ≤ successful / total := div_nonneg hs (le_of_lt ht)
      have hq1 : successful / total ≤ 1 := (div_le_one ht).mpr hle
      have hr0 : 0 ≤ r (successful / total) := by
        have := hmono 0 _ hq0
        rwa [h0] at this
      have hr1 : r (successful / total) ≤ 1 := by
        have := hmono _ 1 hq1
        rwa [h1] at this
      constructor
      · have := hmono 0 (r (successful / total) * 100) (by positivity)
        rwa [h0] at this
      · have := hmono (r (successful / total) * 100) 100 (by linarith)
        rwa [h100] at this
    · exact ⟨le_refl 0, by norm_num⟩
  refine ⟨rfl, ?_, ?_, ?_, range rnd, ?_, ?_⟩
  · intro h
    simp [calculateSuccessRate, h]
  · intro h
    simp [calculateSuccessRate, not_lt.mpr h]
  · exact range (fun q => q) (fun a b h => h) rfl rfl rfl
  · norm_num [calculateSuccessRate]
  · have h10 : (0 : ℚ) < 10 := by norm_num
    have h8 : (8 : ℚ) / 10 = 8 / 10 := rfl
    simp only [calculateSuccessRate, gt_iff_lt, h10, if_true]
    exact Float64.round_percent_eight_tenths

end Analytics

/-! # Theorems on the majority tally -/

namespace Enterprise

theorem tally_eq (unmarshal : String → Option String) (responses : List ResponseRow) :
    ∀ (acc : List (String × Nat) × Nat),
      responses.foldl
        (fun acc resp =>
          match unmarshal resp.Response with
          | none => acc
          | some choice => (increment acc.1 choice, acc.2 + 1)) acc
      = ((responses.filterMap (fun r => unmarshal r.Response)).foldl increment acc.1,
         acc.2 + (responses.filterMap (fun r => unmarshal r.Response)).length) := by
  induction responses with
  | nil => intro acc; rfl
  | cons r rs ih =>
    intro acc
    rcases hu : unmarshal r.Response with _ | c
    · simp only [List.foldl_cons, hu, ih, List.filterMap_cons]
    · simp only [List.foldl_cons, hu, ih, List.filterMap_cons, List.length_cons]
      congr 1
      omega

theorem lookup_increment (counts : List (String × Nat)) (c k : String) :
    (increment counts c).lookup k =
      if k = c then some ((counts.lookup c).getD 0 + 1) else counts.lookup k := by
  induction counts with
  | nil =>
    by_cases hk : k = c
    · simp [increment, List.lookup, hk]
    · have hkc : (k == c) = false := by simpa using hk
      simp [increment, List.lookup, hk, hkc]
  | cons p rest ih =>
    obtain ⟨a, n⟩ := p
    by_cases hac : a = c
    · subst hac
      by_cases hk : k = a
      · simp [increment, List.lookup, hk]
      · have hka : (k == a) = false := by simpa using hk
        simp [increment, List.lookup, hk, hka]
    · have hca : (c == a) = false := by simpa using Ne.symm hac
      by_cases hk : k = c
      · subst hk
        simp [increment, List.lookup, hac, hca, ih]
      · by_cases hka : k = a
        · simp [increment, List.lookup, hac, hka, hca]
        · have hka2 : (k == a) = false := by simpa using hka
          simp [increment, List.lookup, hac, hka2, ih, hk]

theorem lookup_foldl_increment (l : List String) :
    ∀ (counts : List (String × Nat)) (k : String),
      (l.foldl increment counts).lookup k =
        if l.count k = 0 then counts.lookup k
        else some ((counts.lookup k).getD 0 + l.count k) := by
  induction l with
  | nil => intro counts k; simp
  | cons c l ih =>
    intro counts k
    rw [List.foldl_cons, ih, lookup_increment]
    by_cases hk : k = c
    · subst hk
      by_cases h0 : l.count k = 0
      · simp [h0]
      · simp [h0, List.count_cons]
        omega
    · have hck : (c == k) = false := by simpa using Ne.symm hk
      simp [hk, List.count_cons, hck]

theorem keys_increment (counts : List (String × Nat)) (c : String)
    (hd : (counts.map Prod.fst).Nodup) : ((increment counts c).map Prod.fst).Nodup ∧
      ∀ k, k ∈ (increment counts c).map Prod.fst → k = c ∨ k ∈ counts.map Prod.fst := by
  induction counts with
  | nil => simp [increment]
  | cons p rest ih =>
    obtain ⟨a, n⟩ := p
    simp only [List.map_cons, List.nodup_cons] at hd
    by_cases hac : a = c
    · subst hac
      simp only [increment, if_true, List.map_cons, List.nodup_cons]
      exact ⟨hd, fun k hk => Or.inr hk⟩
    · obtain ⟨hn, hsub⟩ := ih hd.2
      simp only [increment, hac, if_false, List.map_cons, List.nodup_cons, List.mem_cons]
      refine ⟨⟨?_, hn⟩, ?_⟩
      · intro hmem
        rcases hsub a hmem with h1 | h1
        · exact hac h1
        · exact hd.1 h1
      · intro k hk
        rcases hk with h1 | h1
        · exact Or.inr (Or.inl h1)
        · rcases hsub k h1 with h2 | h2
          · exact Or.inl h2
          · exact Or.inr (Or.inr h2)

theorem keys_foldl_increment (l : List String) :
    ∀ (counts : List (String × Nat)), (counts.map Prod.fst).Nodup →
      ((l.foldl increment counts).map Prod.fst).Nodup := by
  induction l with
  | nil => intro counts hd; exact hd
  | cons c l ih => intro counts hd; exact ih _ (keys_increment counts c hd).1

theorem sum_increment (counts : List (String × Nat)) (c : String) :
    ((increment counts c).map Prod.snd).sum = (counts.map Prod.snd).sum + 1 := by
  induction counts with
  | nil => simp [increment]
  | cons p rest ih =>
    obtain ⟨a, n⟩ := p
    by_cases hac : a = c
    · simp [increment, hac]
      omega
    · simp [increment, hac, ih]
      omega

theorem sum_foldl_increment (l : List String) :
    ∀ (counts : List (String × Nat)),
      ((l.foldl increment counts).map Prod.snd).sum = (counts.map Prod.snd).sum + l.length := by
  induction l with
  | nil => intro counts; simp
  | cons c l ih =>
    intro counts
    rw [List.foldl_cons, ih, sum_increment, List.length_cons]
    omega

theorem lookup_map_snd (counts : List (String × Nat)) (g : Nat → ℚ) (k : String) :
    (counts.map (fun p => (p.1, g p.2))).lookup k = (counts.lookup k).map g := by
  induction counts with
  | nil => rfl
  | cons p rest ih =>
    obtain ⟨a, n⟩ := p
    by_cases hka : (k == a) = true
    · simp [List.lookup, hka]
    · simp only [Bool.not_eq_true] at hka
      simp [List.lookup, hka, ih]

theorem sum_percentages (counts : List (String × Nat)) (total : ℚ) :
    ((counts.map (fun p => (p.1, (p.2 : ℚ) / total * 100))).map Prod.snd).sum
      = (((counts.map Prod.snd).sum : Nat) : ℚ) / total * 100 := by
  induction counts with
  | nil => simp
  | cons p rest ih =>
    simp only [List.map_cons, List.sum_cons, ih]
    push_cast
    ring

theorem tally_decoded (unmarshal : String → Option String) (responses : List ResponseRow) :
    tally unmarshal responses =
      ((decodedChoices unmarshal responses).foldl increment [],
       (decodedChoices unmarshal responses).length) := by
  unfold tally decodedChoices
  rw [tally_eq]
  simp

/-- C30, counterexample. For the votes yes, no, yes (and one response that does not decode)
the float64 percentages returned by calculateMajorityResults are
2345624805922133/35184372088832 (printed 66.66666666666666) and
2345624805922133/70368744177664 (printed 33.33333333333333); their sum is not 100. -/
theorem majority_percentages_float_sum :
    calculateMajorityResults Float64.round sampleUnmarshal sampleResponses =
      { type := "MAJORITY", total_votes := 3,
        results := [("yes", 2345624805922133 / 35184372088832),
                    ("no", 2345624805922133 / 70368744177664)] } ∧
    ((calculateMajorityResults Float64.round sampleUnmarshal sampleResponses).results.map
      Prod.snd).sum = 7036874417766399 / 70368744177664 ∧
    ((calculateMajorityResults Float64.round sampleUnmarshal sampleResponses).results.map
      Prod.snd).sum ≠ 100 := by
  have h : calculateMajorityResults Float64.round sampleUnmarshal sampleResponses =
      { type := "MAJORITY", total_votes := 3,
        results := [("yes", 2345624805922133 / 35184372088832),
                    ("no", 2345624805922133 / 70368744177664)] } := by
    have ht : tally sampleUnmarshal sampleResponses = ([("yes", 2), ("no", 1)], 3) := by
      decide
    simp only [calculateMajorityResults, ht, List.map_cons, List.map_nil, Nat.cast_ofNat,
      Nat.cast_one, Float64.round_percent_two_thirds, Float64.round_percent_one_third]
  refine ⟨h, ?_, ?_⟩
  · rw [h]
    norm_num
  · rw [h]
    norm_num

/-- C30, amended. Majority tally: for every list of vote responses and every rounding of the
float64 operations, calculateMajorityResults reports total_votes = the number of responses
that decode to a string choice (the others are skipped) and a results map with one entry for
each choice that occurs, whose value is count(choice) / total_votes × 100 as computed by
the two rounded operations; when none decodes the results map is empty, so that no division
takes place; in exact arithmetic (no rounding) the percentages sum to 100 when at least one
response decodes. -/
theorem majority_tally (rnd : ℚ → ℚ) (unmarshal : String → Option String)
    (responses : List ResponseRow) :
    (calculateMajorityResults rnd unmarshal responses).type = "MAJORITY" ∧
    (calculateMajorityResults rnd unmarshal responses).total_votes
      = (decodedChoices unmarshal responses).length ∧
    ((calculateMajorityResults rnd unmarshal responses).results.map Prod.fst).Nodup ∧
    (∀ choice, choice ∈ decodedChoices unmarshal responses →
      (calculateMajorityResults rnd unmarshal responses).results.lookup choice
        = some (rnd (rnd (((decodedChoices unmarshal responses).count choice : ℚ)
            / ((calculateMajorityResults rnd unmarshal responses).total_votes : ℚ)) * 100))) ∧
    (∀ choice, choice ∉ decodedChoices unmarshal responses →
      (calculateMajorityResults rnd unmarshal responses).results.lookup choice = none) ∧
    (decodedChoices unmarshal responses = [] →
      (calculateMajorityResults rnd unmarshal responses).results = []) ∧
    (decodedChoices unmarshal responses ≠ [] →
      ((calculateMajorityResults (fun q => q) unmarshal responses).results.map Prod.snd).sum
        = 100) := by
  have ht := tally_decoded unmarshal responses
  refine ⟨rfl, ?_, ?_, ?_, ?_, ?_, ?_⟩
  · simp [calculateMajorityResults, ht]
  · simp only [calculateMajorityResults, ht, List.map_map]
    exact keys_foldl_increment _ [] (by simp)
  · intro choice hmem
    have hpos : (decodedChoices unmarshal responses).count choice ≠ 0 := by
      have := List.count_pos_iff.mpr hmem
      omega
    simp only [calculateMajorityResults, ht]
    rw [lookup_map_snd _ (fun n => rnd (rnd ((n : ℚ) /
      ((decodedChoices unmarshal responses).length : ℚ)) * 100)), lookup_foldl_increment]
    simp [hpos]
  · intro choice hmem
    have h0 : (decodedChoices unmarshal responses).count choice = 0 :=
      List.count_eq_zero.mpr hmem
    simp only [calculateMajorityResults, ht]
    rw [lookup_map_snd _ (fun n => rnd (rnd ((n : ℚ) /
      ((decodedChoices unmarshal responses).length : ℚ)) * 100)), lookup_foldl_increment]
    simp [h0]
  · intro hnil
    simp [calculateMajorityResults, ht, hnil]
  · intro hne
    have hlen : ((decodedChoices unmarshal responses).length : ℚ) ≠ 0 := by
      have : (decodedChoices unmarshal responses).length ≠ 0 := by
        simpa [List.length_eq_zero] using hne
      exact_mod_cast this
    simp only [calculateMajorityResults, ht]
    rw [sum_percentages, sum_foldl_increment]
    simp only [List.map_nil, List.sum_nil, zero_add]
    rw [div_self hlen]
    norm_num

theorem majority_tally_witness :
    calculateMajorityResults (fun q => q) sampleUnmarshal sampleResponses =
      { type := "MAJORITY", total_votes := 3,
        results := [("yes", (2 : ℚ) / 3 * 100), ("no", (1 : ℚ) / 3 * 100)] } ∧
    ((calculateMajorityResults (fun q => q) sampleUnmarshal sampleResponses).results.map
      Prod.snd).sum = 100 :=
  ⟨by with_unfolding_all rfl,
   (majority_tally (fun q => q) sampleUnmarshal sampleResponses).2.2.2.2.2.2 (by decide)⟩

end Enterprise
